import Mathlib

set_option maxRecDepth 1000000

/-!
Verification development for `src/apac_mena_monitor.py`, the APAC/MENA
security news monitor.  The core pipeline (pattern library, noise
classifier, region gate, signal gate, scorer, priority mapping,
deduplicator, feed builder) is shallowly embedded below over `List Char`
texts, `Int` Unix timestamps (seconds) and `Nat` scores.

Modelling conventions, stated once here:
* Python's case-insensitive regex matching (`re.I`) is modelled by
  lowercasing the text with `lowerChar` (ASCII A–Z) before matching the
  lowercased pattern literals.  Word boundaries `\b` are modelled by
  `wordChar` tests on the neighbouring characters.
* Float time arithmetic `(now - ts)/3600.0 <= 6` is modelled by the exact
  integer inequality `now - ts ≤ 6 * 3600`, which is equivalent over the
  rationals; likewise for the 24 hour bound.
* `sha256(x).hexdigest()` is used by the code purely as an equality key and
  an opaque identifier; it is modelled by the preimage string `x` itself
  (the model is exact up to SHA-256 collisions).
* `difflib.SequenceMatcher.ratio` is modelled by the Ratcliff/Obershelp
  computation difflib performs (recursive leftmost longest matching block),
  without the `autojunk` heuristic, which only activates for strings of
  length ≥ 200 and never for the titles considered here.  The float
  comparison `ratio >= 0.96` is modelled exactly as `25 * (2*M) ≥ 24 * T`
  over the integers.
-/

namespace SgrSoc

/-! ### Characters -/

/-- ASCII lowercasing of A–Z, used to model `str.lower()` and `re.I`. -/
def lowerChar (c : Char) : Char :=
  if 65 ≤ c.toNat ∧ c.toNat ≤ 90 then
    (("abcdefghijklmnopqrstuvwxyz".toList).get? (c.toNat - 65)).getD c
  else c

/-- Python `\s` (ASCII part): space, tab, newline, carriage return, vertical
tab, form feed. -/
def spc (c : Char) : Bool :=
  c = ' ' || c = '\t' || c = '\n' || c = '\r' || c.toNat = 11 || c.toNat = 12

/-- Python `\w` on the texts at hand (the matchers receive lowercased text,
but A–Z is kept for robustness): ASCII letters, digits and underscore. -/
def wordChar (c : Char) : Bool :=
  ('a' ≤ c && c ≤ 'z') || ('0' ≤ c && c ≤ '9') || ('A' ≤ c && c ≤ 'Z') || c = '_'

/-- The character class `[a-z0-9]` of `normalize_title`'s fourth rewrite
(code points 97–122 and 48–57). -/
def alnum09 (c : Char) : Bool :=
  (97 ≤ c.toNat && c.toNat ≤ 122) || (48 ≤ c.toNat && c.toNat ≤ 57)

/-- The dash class `[-–—]` of `normalize_title`'s third rewrite. -/
def dashChar (c : Char) : Bool :=
  c = '-' || c = '–' || c = '—'

/-! ### A small regex fragment

The pattern library only uses literals, single-character options (`s?`,
`&?`, `[- ]?`, `'?`), whitespace repetitions (`\s?`, `\s*`) and `.*`;
`Pat` covers exactly these, in continuation-passing style. -/

inductive Pat where
  | lit : List Char → Pat
  | opt : Char → Pat
  | optIn : List Char → Pat
  | wsOpt : Pat
  | ws : Pat
  | dotStar : Pat
  | seq : Pat → Pat → Pat
  | alt : Pat → Pat → Pat

/-- Continuation helper for `\s*`: try the continuation after dropping each
whitespace prefix. -/
def wsK (k : List Char → Bool) : List Char → Bool
  | [] => k []
  | c :: t => k (c :: t) || (spc c && wsK k t)

/-- Continuation helper for `.*` (which does not cross a newline). -/
def dotK (k : List Char → Bool) : List Char → Bool
  | [] => k []
  | c :: t => k (c :: t) || (!(c = '\n') && dotK k t)

/-- Does `p` match a prefix of `l` such that the continuation `k` accepts
the remainder? -/
def Pat.matchK : Pat → List Char → (List Char → Bool) → Bool
  | .lit s, l, k => s.isPrefixOf l && k (l.drop s.length)
  | .opt c, l, k =>
      (match l with
       | c2 :: t => (c2 = c && k t)
       | [] => false) || k l
  | .optIn cs, l, k =>
      (match l with
       | c2 :: t => (cs.contains c2 && k t)
       | [] => false) || k l
  | .wsOpt, l, k =>
      (match l with
       | c2 :: t => (spc c2 && k t)
       | [] => false) || k l
  | .ws, l, k => wsK k l
  | .dotStar, l, k => dotK k l
  | .seq a b, l, k => a.matchK l (fun l2 => b.matchK l2 k)
  | .alt a b, l, k => a.matchK l k || b.matchK l k

/-- One alternative of a compiled alternation: a pattern together with flags
for a leading and a trailing `\b`.  All bounded alternatives in the source
start and end with word characters, so the boundary tests reduce to the
neighbouring character being absent or a non-word character. -/
structure RxAlt where
  lb : Bool
  pat : Pat
  rb : Bool

/-- Right-boundary test: the remainder is empty or starts with a non-word
character. -/
def okRB (b : Bool) (rest : List Char) : Bool :=
  !b || (match rest with
    | [] => true
    | c :: _ => !wordChar c)

/-- Left-boundary test against the character preceding the match position. -/
def okLB (b : Bool) : Option Char → Bool
  | none => true
  | some c => !b || !wordChar c

/-- Scan `l` for a match of `a` at any position, tracking the previous
character for the left-boundary test (models `re.search`). -/
def searchAux (a : RxAlt) : Option Char → List Char → Bool
  | prev, [] => okLB a.lb prev && a.pat.matchK [] (fun rest => okRB a.rb rest)
  | prev, c :: t =>
    (okLB a.lb prev && a.pat.matchK (c :: t) (fun rest => okRB a.rb rest)) ||
    searchAux a (some c) t

def searchAlt (a : RxAlt) (l : List Char) : Bool := searchAux a none l

/-- `_any(compiled_patterns, text)` over the alternatives of a pattern set. -/
def anyAlt (as : List RxAlt) (l : List Char) : Bool := as.any (fun a => searchAlt a l)

/-- A `\b(word)\b` alternative. -/
def wb (s : String) : RxAlt := ⟨true, Pat.lit s.toList, true⟩

/-- An unbounded (plain substring) alternative. -/
def ss (s : String) : RxAlt := ⟨false, Pat.lit s.toList, false⟩

/-- An alternative with only a trailing `\b` (e.g. `blr\b`). -/
def rbOnly (s : String) : RxAlt := ⟨false, Pat.lit s.toList, true⟩

/-- `sub in text` (plain substring containment, e.g. `"suspended" in t`). -/
def containsSub (p : List Char) : List Char → Bool
  | [] => p.isPrefixOf []
  | c :: t => p.isPrefixOf (c :: t) || containsSub p t

/-- Shorthand for a literal pattern. -/
def pl (s : String) : Pat := Pat.lit s.toList

/-- The apostrophe character (in `shenzhen bao'?an`). -/
def apos : Char := Char.ofNat 39

def lowerAll (l : List Char) : List Char := l.map lowerChar

/-! ### Pattern library

Transcribed set by set from the module-level pattern lists of the source.
Literals are given lowercased because every matcher lowercases its input
(modelling `re.I`). -/

def SPORTS_PATTERNS : List RxAlt :=
  [wb "sport", wb "sports", wb "football", wb "soccer", wb "rugby", wb "tennis",
   wb "golf", wb "cricket",
   ⟨true, Pat.seq (pl "formula") (Pat.seq Pat.wsOpt (pl "1")), true⟩,
   wb "f1", wb "motogp", wb "basketball", wb "nba", wb "hockey", wb "nhl",
   wb "baseball", wb "mlb", wb "boxing", wb "mma", wb "ufc", wb "marathon",
   ⟨true, Pat.seq (pl "olympic") (Pat.opt 's'), true⟩]

def SPORTS_META_PATTERNS : List RxAlt :=
  [wb "match", wb "fixture", wb "league", wb "cup", wb "championship", wb "qualifier",
   ⟨true, Pat.seq (pl "play") (Pat.seq (Pat.optIn ['-', ' ']) (pl "off")), true⟩,
   wb "transfer", wb "goal",
   ⟨true, Pat.seq (pl "line") (Pat.seq (Pat.optIn ['-', ' ']) (pl "up")), true⟩,
   wb "result", wb "scoreline", wb "standings"]

def ENTERTAINMENT_PATTERNS : List RxAlt :=
  [wb "entertainment", wb "celebrity", wb "royal family", wb "fashion", wb "lifestyle",
   wb "culture", wb "arts", wb "movie", wb "film", wb "tv series", wb "theatre",
   wb "theater", wb "music", wb "gaming", wb "trailer", wb "box office"]

def BOOKS_PRIZES_PATTERNS : List RxAlt :=
  [wb "novel", wb "book", wb "memoir", wb "author", wb "poet", wb "literary",
   wb "shortlist", wb "longlist", wb "prize", wb "award"]

def OBITUARY_PATTERNS : List RxAlt :=
  [wb "obituary", wb "dies at", wb "dead at", wb "passes away", wb "cause of death"]

/-- The heads of the anchored feature pattern `^(opinion|...):`. -/
def FEATURE_HEADS : List (List Char) :=
  ["opinion".toList, "op-ed".toList, "editorial".toList, "analysis".toList,
   "explainer".toList, "who is".toList, "profile".toList]

def FEATURE_WORD_PATTERNS : List RxAlt :=
  [wb "feature", wb "long read", wb "special report", wb "what to know",
   wb "what we know", wb "as it happened", wb "live blog"]

def FINANCE_PATTERNS : List RxAlt :=
  [⟨true, Pat.seq (pl "stock") (Pat.opt 's'), true⟩,
   ⟨true, Pat.seq (pl "share") (Pat.opt 's'), true⟩,
   wb "indices", wb "index",
   ⟨true, Pat.seq (pl "bond") (Pat.opt 's'), true⟩,
   ⟨true, Pat.seq (pl "yield") (Pat.opt 's'), true⟩,
   ⟨true, Pat.seq (pl "currenc") (Pat.alt (pl "y") (pl "ies")), true⟩,
   wb "forex", wb "fx",
   ⟨true, Pat.seq (pl "commodit") (Pat.alt (pl "y") (pl "ies")), true⟩,
   wb "earnings", wb "quarterly", wb "ipo", wb "dividend", wb "dow jones", wb "nasdaq",
   ⟨true, Pat.seq (pl "s") (Pat.seq (Pat.opt '&') (Pat.seq (pl "p") (Pat.seq Pat.ws (pl "500")))), true⟩,
   wb "nikkei", wb "hang seng", wb "sensex"]

def GOV_PROC_PATTERNS : List RxAlt :=
  [wb "supreme court", wb "high court", wb "bench", wb "petition", wb "pil",
   wb "ordinance", wb "quota", wb "reservation",
   ⟨true, Pat.seq (pl "by") (Pat.seq (Pat.optIn ['-', ' ']) (pl "election")), true⟩,
   wb "ward", wb "municipal", wb "panchayat",
   ⟨true, Pat.seq (pl "local body poll") (Pat.opt 's'), true⟩]

def HR_DISCIPLINE_PATTERNS : List RxAlt :=
  [wb "appointment", wb "appointed", wb "takes charge", wb "assumes office",
   wb "sworn in", wb "inaugurated", wb "oath",
   wb "franchisee", wb "consumer affairs", wb "ombudsman", wb "advertising standards",
   wb "competition regulator", wb "accc", wb "asic",
   wb "constable suspended", wb "officer suspended", wb "cop suspended"]

def SECURITY_EXCEPTIONS : List RxAlt :=
  [wb "sanction", wb "export control", wb "embargo", wb "asset freeze", wb "seizure",
   wb "raid", wb "police", wb "arrest", wb "detained",
   wb "curfew", wb "state of emergency", wb "martial law", wb "evacuation", wb "evacuated",
   wb "airspace closed", wb "airport closed", wb "border closed", wb "blockade", wb "roadblock",
   wb "strike", wb "walkout", wb "protest", wb "demonstration", wb "riot", wb "unrest", wb "clashes",
   wb "explosion", wb "blast", wb "attack", wb "shooting", wb "bomb", wb "grenade",
   wb "kidnap", wb "hostage", wb "terror", wb "rocket", wb "missile", wb "drone",
   wb "cyber", wb "ransomware", wb "ddos", wb "data breach", wb "hacked"]

def VIOLENCE : List RxAlt :=
  [ss "riot", ss "violent", ss "clashes", ss "looting", ss "molotov", ss "stabbing",
   ss "knife attack", ss "shooting", ss "gunfire", ss "shots fired", ss "arson"]

def TERROR_SUBS : List RxAlt :=
  [ss "car bomb", ss "suicide bomb", ss "ied", ss "explosion", ss "blast"]

def CASUALTY : List RxAlt :=
  [wb "killed", wb "dead", wb "fatalit", wb "injured", wb "wounded", wb "casualt"]

def PROTESTS : List RxAlt :=
  [ss "protest", ss "demonstration", ss "march", ss "blockade", ss "strike",
   ss "walkout", ss "picket"]

def CYBER_SUBS : List RxAlt :=
  [ss "ransomware", ss "data breach", ss "ddos", ss "phishing", ss "malware",
   ss "cyber attack"]

def TRANS_HARD : List RxAlt :=
  [ss "airport closed", ss "airspace closed", ss "runway closed", ss "rail suspended",
   ss "service suspended", ss "port closed", ss "all lanes closed", ss "carriageway closed",
   ss "road closed", ss "blocked",
   ⟨false, Pat.seq (pl "drone") (Pat.seq Pat.dotStar (Pat.alt (pl "airport") (pl "airspace"))), false⟩]

def HAZARDS : List RxAlt :=
  [ss "flood", ss "flash flood", ss "earthquake", ss "aftershock", ss "landslide",
   ss "wildfire", ss "storm", ss "typhoon", ss "tornado", ss "heatwave", ss "snow",
   ss "ice", ss "avalanche", ss "wind", ss "gale", ss "tsunami"]

def WATCHLIST : List RxAlt :=
  [ss "bangalore", ss "bengaluru",
   ss "beijing",
   ss "mumbai", ss "bombay",
   ⟨false, Pat.seq (pl "new") (Pat.seq Pat.ws (pl "delhi")), false⟩, ss "delhi", ss "ndls",
   ss "shenzhen",
   ss "singapore",
   ss "sydney",
   ss "tokyo",
   ss "dubai",
   ss "riyadh",
   ss "doha"]

def WATCHLIST_HUBS : List RxAlt :=
  [ss "kempegowda", rbOnly "blr", ss "bengaluru international",
   ss "chhatrapati shivaji", ss "csmia", rbOnly "bom", ss "mumbai international",
   ss "indira gandhi", ss "igi", rbOnly "del", ss "new delhi railway station", ss "ndls",
   ss "beijing capital", rbOnly "pek", ss "daxing", rbOnly "pkx",
   ⟨false, Pat.seq (pl "shenzhen bao") (Pat.seq (Pat.opt apos) (pl "an")), false⟩,
   rbOnly "szx",
   ss "shenzhen north station", ss "futian station",
   ss "changi", rbOnly "sin", ss "woodlands checkpoint", ss "tuas checkpoint", ss "mrt",
   ss "sydney airport", rbOnly "syd", ss "central station sydney",
   ss "narita", rbOnly "nrt", ss "haneda", rbOnly "hnd", ss "tokyo station",
   ss "dubai international", rbOnly "dxb", ss "al maktoum", rbOnly "dwc",
   ss "union station dubai", ss "burjuman",
   ss "king khalid international", rbOnly "ruh", ss "riyadh metro",
   ss "hamad international", rbOnly "doh"]

def APAC_MENA_ALLOW : List RxAlt :=
  [wb "india", wb "new delhi", wb "delhi", wb "mumbai", wb "bengaluru", wb "bangalore",
   wb "kolkata", wb "chennai", wb "sri lanka", wb "bangladesh", wb "nepal", wb "bhutan",
   wb "maldives", wb "pakistan",
   wb "singapore", wb "malaysia", wb "indonesia", wb "philippines", wb "thailand",
   wb "vietnam", wb "cambodia", wb "laos", wb "myanmar", wb "brunei",
   ⟨true, Pat.seq (pl "timor") (Pat.seq (Pat.optIn ['-', ' ']) (pl "leste")), true⟩,
   wb "china", wb "beijing", wb "shenzhen", wb "shanghai", wb "hong kong", wb "macao",
   wb "japan", wb "tokyo", wb "osaka", wb "kobe", wb "hokkaido", wb "korea",
   wb "south korea", wb "seoul", wb "north korea", wb "pyongyang", wb "taiwan", wb "taipei",
   wb "australia", wb "sydney", wb "melbourne", wb "brisbane", wb "perth",
   wb "new zealand", wb "wellington", wb "auckland",
   wb "uae", wb "united arab emirates", wb "dubai", wb "abu dhabi", wb "saudi arabia",
   wb "riyadh", wb "jeddah", wb "qatar", wb "doha", wb "bahrain", wb "kuwait", wb "oman",
   wb "yemen", wb "jordan", wb "lebanon", wb "syria", wb "iraq", wb "iran", wb "israel",
   wb "west bank", wb "gaza", wb "palestine", wb "turkey", wb "türkiye", wb "cyprus",
   wb "egypt", wb "cairo", wb "libya", wb "tunisia", wb "algeria", wb "morocco"]

def NON_TARGET_STRONG : List RxAlt :=
  [wb "united states", wb "usa", wb "us", wb "american", wb "canada", wb "canadian",
   wb "mexico",
   wb "argentina", wb "bolivia", wb "brazil", wb "chile", wb "colombia", wb "costa rica",
   wb "cuba", wb "dominican republic", wb "ecuador", wb "el salvador", wb "guatemala",
   wb "haiti", wb "honduras", wb "jamaica", wb "nicaragua", wb "panama", wb "paraguay",
   wb "peru", wb "uruguay", wb "venezuela",
   wb "uk", wb "united kingdom", wb "england", wb "scotland", wb "wales",
   wb "northern ireland", wb "ireland", wb "france", wb "germany", wb "netherlands",
   wb "belgium", wb "luxembourg", wb "denmark", wb "norway", wb "sweden", wb "finland",
   wb "iceland", wb "poland", wb "czech", wb "slovakia", wb "hungary", wb "romania",
   wb "bulgaria", wb "greece", wb "italy", wb "spain", wb "portugal", wb "ukraine",
   wb "estonia", wb "latvia", wb "lithuania", wb "serbia", wb "bosnia", wb "croatia",
   wb "slovenia", wb "albania", wb "kosovo", wb "moldova"]

def ALLOW_TLDS : List (List Char) :=
  [".ae", ".sa", ".qa", ".bh", ".kw", ".om", ".ye",
   ".il", ".tr", ".cy", ".jo", ".lb", ".sy", ".iq", ".ir",
   ".eg", ".ly", ".tn", ".dz", ".ma",
   ".in", ".lk", ".bd", ".np", ".bt", ".mv", ".pk",
   ".sg", ".my", ".id", ".ph", ".th", ".vn", ".kh", ".la", ".mm", ".bn", ".tl",
   ".cn", ".hk", ".mo", ".jp", ".kr", ".tw",
   ".au", ".nz"].map String.toList

def ALLOW_DOMAINS : List (List Char) :=
  ["nhk.or.jp", "japantimes.co.jp", "abc.net.au", "thehindu.com", "indianexpress.com",
   "channelnewsasia.com", "wam.ae", "arabnews.com", "qna.org.qa",
   "aljazeera.com", "dw.com", "bbc.co.uk", "bbc.com", "france24.com",
   "straitstimes.com"].map String.toList

/-- The trusted-outlet alternation of `score_item`'s source bonus
(`re.search(r"BBC|FRANCE 24|...", source_name, re.I)`); matched as plain
case-insensitive substrings. -/
def TRUSTED_OUTLETS : List (List Char) :=
  ["bbc", "france 24", "dw", "al jazeera", "nhk", "japan times", "abc news",
   "the hindu", "indian express", "wam", "arab news", "qna",
   "straits times"].map String.toList

/-! ### Category matchers

Each matcher lowercases its input, modelling `text.lower()` plus `re.I`. -/

def sportsMatch (l : List Char) : Bool := anyAlt SPORTS_PATTERNS (lowerAll l)

def sportsMetaMatch (l : List Char) : Bool := anyAlt SPORTS_META_PATTERNS (lowerAll l)

def entertainmentMatch (l : List Char) : Bool := anyAlt ENTERTAINMENT_PATTERNS (lowerAll l)

def booksMatch (l : List Char) : Bool := anyAlt BOOKS_PRIZES_PATTERNS (lowerAll l)

def obituaryMatch (l : List Char) : Bool := anyAlt OBITUARY_PATTERNS (lowerAll l)

def featureMatch (l : List Char) : Bool :=
  let t := lowerAll l
  FEATURE_HEADS.any (fun h => (h ++ [':']).isPrefixOf t) || anyAlt FEATURE_WORD_PATTERNS t

def financeMatch (l : List Char) : Bool := anyAlt FINANCE_PATTERNS (lowerAll l)

def govProcMatch (l : List Char) : Bool := anyAlt GOV_PROC_PATTERNS (lowerAll l)

def hrMatch (l : List Char) : Bool := anyAlt HR_DISCIPLINE_PATTERNS (lowerAll l)

def secExcMatch (l : List Char) : Bool := anyAlt SECURITY_EXCEPTIONS (lowerAll l)

def violenceMatch (l : List Char) : Bool := anyAlt VIOLENCE (lowerAll l)

/-- Scan for `terror(?!ism\s*threat)`: an occurrence of `terror` that is not
followed by `ism`, optional whitespace, `threat`. -/
def terrorLook : List Char → Bool
  | [] => false
  | c :: t =>
    ("terror".toList.isPrefixOf (c :: t) &&
      !((Pat.seq (pl "ism") (Pat.seq Pat.ws (pl "threat"))).matchK ((c :: t).drop 6)
          (fun _ => true))) ||
    terrorLook t

def terrorMatch (l : List Char) : Bool :=
  let t := lowerAll l
  terrorLook t || anyAlt TERROR_SUBS t

def casualtyMatch (l : List Char) : Bool := anyAlt CASUALTY (lowerAll l)

def protestsMatch (l : List Char) : Bool := anyAlt PROTESTS (lowerAll l)

/-- Scan for `hack(?!ney)`: an occurrence of `hack` not followed by `ney`. -/
def hackLook : List Char → Bool
  | [] => false
  | c :: t =>
    ("hack".toList.isPrefixOf (c :: t) && !("ney".toList.isPrefixOf ((c :: t).drop 4))) ||
    hackLook t

def cyberMatch (l : List Char) : Bool :=
  let t := lowerAll l
  anyAlt CYBER_SUBS t || hackLook t

def transHardMatch (l : List Char) : Bool := anyAlt TRANS_HARD (lowerAll l)

def hazardsMatch (l : List Char) : Bool := anyAlt HAZARDS (lowerAll l)

/-- `_any(WATCHLIST_RE + WATCHLIST_HUBS_RE, t)`. -/
def watchMatch (l : List Char) : Bool := anyAlt (WATCHLIST ++ WATCHLIST_HUBS) (lowerAll l)

def allowMatch (l : List Char) : Bool := anyAlt APAC_MENA_ALLOW (lowerAll l)

def nonTargetMatch (l : List Char) : Bool := anyAlt NON_TARGET_STRONG (lowerAll l)

def trustedSource (s : List Char) : Bool :=
  TRUSTED_OUTLETS.any (fun n => containsSub n (lowerAll s))

/-! ### Noise classifier, region gate, signal gate -/

/-- The transport carve-out of the HR/discipline branch:
`"suspended" in t and re.search(r"\b(service|rail|train|metro|flight|airport|runway)\b", t)`. -/
def suspTransport (l : List Char) : Bool :=
  let t := lowerAll l
  containsSub ("suspended".toList) t &&
    anyAlt [wb "service", wb "rail", wb "train", wb "metro", wb "flight",
            wb "airport", wb "runway"] t

/-- `is_noise(text)` from the source: the first-true-wins rejection chain. -/
def is_noise (text : List Char) : Bool :=
  if sportsMatch text || sportsMetaMatch text then true
  else if entertainmentMatch text || booksMatch text then true
  else if obituaryMatch text &&
      !(violenceMatch text || terrorMatch text || casualtyMatch text) then true
  else if featureMatch text then true
  else if (financeMatch text || govProcMatch text) && !secExcMatch text then true
  else if hrMatch text then
    (if suspTransport text then false else true)
  else false

/-- Model of `urlparse(link).netloc`: the substring after the first `://` up
to the next `/`, `?` or `#` (empty when the link has no `://`). -/
def extractHost : List Char → List Char
  | [] => []
  | c :: t =>
    if "://".toList.isPrefixOf (c :: t) then
      ((c :: t).drop 3).takeWhile (fun d => !(d = '/' || d = '?' || d = '#'))
    else extractHost t

/-- The domain/TLD fallback of the region gate. -/
def hostHeur (link : List Char) : Bool :=
  let host := lowerAll (extractHost link)
  ALLOW_TLDS.any (fun tld => tld.isSuffixOf host) ||
  ALLOW_DOMAINS.any (fun d => containsSub d host)

/-- `is_region_relevant(text, link)` from the source. -/
def is_region_relevant (text link : List Char) : Bool :=
  if nonTargetMatch text && !(allowMatch text || watchMatch text) then false
  else if allowMatch text || watchMatch text then true
  else hostHeur link

/-- `is_high_signal(text)` from the source. -/
def is_high_signal (text : List Char) : Bool :=
  violenceMatch text || terrorMatch text || casualtyMatch text || protestsMatch text ||
  transHardMatch text || cyberMatch text || hazardsMatch text

/-! ### Scorer and priority mapping -/

def P1_THRESHOLD : Nat := 80

def P2_THRESHOLD : Nat := 50

def P3_THRESHOLD : Nat := 30

def MIN_SCORE_TO_INCLUDE : Nat := 35

/-- `recency_bonus(ts)`; the evaluation time `time.time()` is passed
explicitly as `now`.  `(now - ts)/3600.0 <= 6` is the exact integer
inequality `now - ts ≤ 21600`, and likewise for 24 hours. -/
def recency_bonus (now ts : Int) : Nat :=
  if now - ts ≤ 6 * 3600 then 10 else if now - ts ≤ 24 * 3600 then 5 else 0

/-- `score_item(text, published_ts, source_name)` from the source, with the
evaluation time passed explicitly.  The accumulator chain mirrors the
sequence of `s += bonus` statements. -/
def score_item (now : Int) (text : List Char) (published_ts : Int)
    (source_name : List Char) : Nat :=
  let s0 : Nat := 0
  let s1 := if terrorMatch text then s0 + 90 else s0
  let s2 := if violenceMatch text then s1 + 85 else s1
  let s3 := if casualtyMatch text then s2 + 35 else s2
  let s4 := if protestsMatch text then s3 + 55 else s3
  let s5 := if transHardMatch text then s4 + 70 else s4
  let s6 := if cyberMatch text then s5 + 50 else s5
  let s7 := if hazardsMatch text then s6 + 35 else s6
  let s8 := if watchMatch text then s7 + 30 else s7
  let s9 := s8 + recency_bonus now published_ts
  if source_name ≠ [] ∧ trustedSource source_name then s9 + 6 else s9

/-- `to_priority(score)` from the source. -/
def to_priority (score : Nat) : Nat :=
  if score ≥ P1_THRESHOLD then 1
  else if score ≥ P2_THRESHOLD then 2
  else if score ≥ P3_THRESHOLD then 3
  else 0

/-! ### Title normalisation -/

/-- The leading-marker alternation of `normalize_title`'s first rewrite, in
source order. -/
def markers : List (List Char) :=
  ["breaking".toList, "live".toList, "update".toList, "updated".toList,
   "just in".toList, "watch".toList, "video".toList]

/-- Does marker `m` (followed by a colon and at least one whitespace) start
the string?  This is `^(marker):\s+` at position 0. -/
def markerAt (m : List Char) (l : List Char) : Bool :=
  (m ++ [':']).isPrefixOf l &&
    (match l.drop (m.length + 1) with
     | c :: _ => spc c
     | [] => false)

/-- `re.sub(r"^(breaking|live|update|updated|just in|watch|video):\s+", "", s)`:
strip the marker, the colon and the whitespace run after it (a single
substitution, since `^` only matches at position 0). -/
def stripLeadingMarker (l : List Char) : List Char :=
  match markers.find? (fun m => markerAt m l) with
  | some m => ((l.drop (m.length + 1)).dropWhile spc)
  | none => l

/-- Does `\s*\([^)]+\)$` match the whole of `s`: a whitespace run, an
opening parenthesis, at least one non-`)` character, then `)` at the very
end? -/
def parenSuffix (s : List Char) : Bool :=
  match s.dropWhile spc with
  | '(' :: rest =>
    decide (2 ≤ rest.length) && rest.dropLast.all (fun c => !(c = ')')) &&
      (rest.getLastD ' ' = ')')
  | _ => false

/-- `re.sub(r"\s*\([^)]+\)$", "", s)`: cut the string at the leftmost
position whose whole suffix matches the trailing-parenthetical pattern. -/
def stripTrailingParen : List Char → List Char
  | [] => []
  | c :: t => if parenSuffix (c :: t) then [] else c :: stripTrailingParen t

/-- `re.sub(r"[-–—]+", "-", s)`: collapse dash runs to a single `-`.  The
boolean argument records whether the previous character was a dash. -/
def collDashAux : Bool → List Char → List Char
  | _, [] => []
  | prevDash, c :: t =>
    if dashChar c then
      (if prevDash then collDashAux true t else '-' :: collDashAux true t)
    else c :: collDashAux false t

def collapseDashes (l : List Char) : List Char := collDashAux false l

/-- Split into the maximal `[a-z0-9]` runs (the words left by
`re.sub(r"[^a-z0-9]+", " ", s)`), accumulating the current run reversed. -/
def wordsAcc : List Char → List Char → List (List Char)
  | cur, [] => if cur = [] then [] else [cur.reverse]
  | cur, c :: t =>
    if alnum09 c then wordsAcc (c :: cur) t
    else if cur = [] then wordsAcc [] t
    else cur.reverse :: wordsAcc [] t

def alnumWords (l : List Char) : List (List Char) := wordsAcc [] l

/-- The filler words removed by `normalize_title`'s fifth rewrite. -/
def fillers : List (List Char) :=
  ["report".toList, "video".toList, "live".toList, "analysis".toList, "opinion".toList]

/-- `normalize_title(s)` from the source.  The last three rewrites
(`[^a-z0-9]+ -> " "`, removal of the filler words `\b(report|video|live|analysis|opinion)\b`,
whitespace collapse plus strip) are fused into: split into `[a-z0-9]` runs,
drop the filler runs, join with single spaces — which yields the identical
string. -/
def normalize_title (s : List Char) : List Char :=
  let t1 := lowerAll s
  let t2 := stripLeadingMarker t1
  let t3 := stripTrailingParen t2
  let t4 := collapseDashes t3
  List.intercalate (" ".toList) ((alnumWords t4).filter (fun w => !fillers.contains w))

/-- No marker of `normalize_title`'s first rewrite, followed by a colon, is
a prefix of the string (so the first rewrite cannot fire, nor start to
fire at position 0 of any extension). -/
def markerFreeB (u : List Char) : Bool :=
  markers.all (fun m => !((m ++ [':']).isPrefixOf u))

/-- The string contains neither parenthesis character. -/
def parenFreeB (l : List Char) : Bool :=
  l.all (fun c => !(c = '(' || c = ')'))

/-- The string with its trailing whitespace removed. -/
def stripWsRight (l : List Char) : List Char := (l.reverse.dropWhile spc).reverse

/-! ### SequenceMatcher similarity

`SequenceMatcher(None, a, b).ratio()` is `2*M/T` where `T = len(a)+len(b)`
and `M` is the total size of the matching blocks found by the
Ratcliff/Obershelp recursion: the longest matching block (leftmost in `a`,
then leftmost in `b`) splits the problem into the parts before and after
it.  (`_calculate_ratio` returns `1.0` when `T = 0`.) -/

/-- Length of the common prefix of two strings. -/
def cpl : List Char → List Char → Nat
  | a :: as2, b :: bs2 => if a = b then cpl as2 bs2 + 1 else 0
  | _, _ => 0

/-- `find_longest_match` over whole strings: the `(i, j, size)` maximising
`size`, ties resolved towards the smallest `i`, then the smallest `j`
(the fold visits candidates in `i`-major, `j`-minor order and only replaces
the best on a strictly larger size). -/
def bestMatch (a b : List Char) : Nat × Nat × Nat :=
  ((List.range a.length).flatMap (fun i => (List.range b.length).map (fun j => (i, j)))).foldl
    (fun best ij =>
      let k := cpl (a.drop ij.1) (b.drop ij.2)
      if best.2.2 < k then (ij.1, ij.2, k) else best)
    (0, 0, 0)

/-- Total matched size of the recursive matching blocks, with fuel; each
recursion step strictly shrinks the first string, so `a.length + 1` fuel
suffices. -/
def matchSumF : Nat → List Char → List Char → Nat
  | 0, _, _ => 0
  | fuel + 1, a, b =>
    let ijk := bestMatch a b
    if ijk.2.2 = 0 then 0
    else
      matchSumF fuel (a.take ijk.1) (b.take ijk.2.1) + ijk.2.2 +
        matchSumF fuel (a.drop (ijk.1 + ijk.2.2)) (b.drop (ijk.2.1 + ijk.2.2))

def matchSum (a b : List Char) : Nat := matchSumF (a.length + 1) a b

/-- `SequenceMatcher(None, a, b).ratio() >= 0.96`, compared exactly:
`2*M/(la+lb) ≥ 0.96  ⟺  25 * (2*M) ≥ 24 * (la+lb)`; an empty total length
gives ratio `1.0`. -/
def ratioGE96 (a b : List Char) : Bool :=
  let t := a.length + b.length
  if t = 0 then true else decide (24 * t ≤ 25 * (2 * matchSum a b))

/-! ### Items, the harvest pipeline and the deduplicator -/

/-- The `Item` dataclass. -/
structure Item where
  title : List Char
  link : List Char
  summary : List Char
  published_ts : Int
  source : List Char
  score : Nat
  priority : Nat
  deriving DecidableEq, Repr

/-- One raw candidate entry (title, link, summary, publish time, source)
after the ingestion layer, before the gates. -/
structure Candidate where
  title : List Char
  link : List Char
  summary : List Char
  published_ts : Int
  source : List Char
  deriving DecidableEq, Repr

/-- `text = f"{title} {summary}"`. -/
def candText (c : Candidate) : List Char := c.title ++ ' ' :: c.summary

/-- The per-candidate part of `harvest`'s loop body: the empty-field check,
the three gates, scoring, priority mapping and the inclusion floor.
Returns the `Item` appended to `items`, or `none` when any `continue` is
taken. -/
def processCandidate (now : Int) (c : Candidate) : Option Item :=
  if c.title = [] ∨ c.link = [] then none
  else if is_noise (candText c) then none
  else if !is_region_relevant (candText c) c.link then none
  else if !is_high_signal (candText c) then none
  else
    let sc := score_item now (candText c) c.published_ts c.source
    let pr := to_priority sc
    if pr = 0 ∨ sc < MIN_SCORE_TO_INCLUDE then none
    else some ⟨c.title, c.link, c.summary, c.published_ts, c.source, sc, pr⟩

/-- Sort key comparison: `(x.priority, x.score, x.published_ts)` of `x` is
lexicographically at least that of `y`. -/
def keyGe (x y : Item) : Bool :=
  decide (y.priority < x.priority ∨
    (x.priority = y.priority ∧
      (y.score < x.score ∨ (x.score = y.score ∧ y.published_ts ≤ x.published_ts))))

/-- Stable insertion into a descending-sorted list: an element is placed
before the first strictly smaller key, and before equal keys of originally
later elements — reproducing `sorted(items, key=..., reverse=True)`
(Python's sort is stable). -/
def insertDesc (x : Item) : List Item → List Item
  | [] => [x]
  | y :: ys => if keyGe x y then x :: y :: ys else y :: insertDesc x ys

def sortDesc (l : List Item) : List Item := l.foldr insertDesc []

/-- The exact-duplicate key: `sha256(title + "|" + link)` modelled by its
preimage. -/
def hashKey (it : Item) : List Char := it.title ++ '|' :: it.link

/-- The deduplication walk over the sorted items, carrying `seen_hash` and
`seen_norm`. -/
def dedupWalk : List Item → List (List Char) → List (List Char) → List Item
  | [], _, _ => []
  | it :: rest, seenH, seenN =>
    if hashKey it ∈ seenH then dedupWalk rest seenH seenN
    else if seenN.any (fun p => ratioGE96 (normalize_title it.title) p) then
      dedupWalk rest seenH seenN
    else it :: dedupWalk rest (hashKey it :: seenH) (seenN ++ [normalize_title it.title])

/-- The sort-and-deduplicate stage at the end of `harvest`. -/
def dedup (l : List Item) : List Item := dedupWalk (sortDesc l) [] []

/-- The whole core of `harvest` on a list of candidates (ingestion and
feed parsing excluded): gate and score each candidate, then deduplicate. -/
def harvestCore (now : Int) (cands : List Candidate) : List Item :=
  dedup (cands.filterMap (processCandidate now))

/-! ### Feed building (replay mode) -/

/-- One generated feed entry; `guidSrc` is the preimage string fed to
`sha256` for the entry's guid. -/
structure FeedEntry where
  title : List Char
  link : List Char
  desc : List Char
  pubDate : Int
  guidSrc : List Char
  deriving DecidableEq, Repr

/-- Model of `now.strftime("%Y%m%d%H%M%S")`: an injective textual encoding
of the evaluation time. -/
def timeToken (now : Int) : List Char := (toString now).toList

/-- The description rendered for an item (`html.escape` modelled as the
identity on the plain source names considered). -/
def descOf (it : Item) : List Char :=
  (if it.source ≠ [] then
    ("<b>Source:</b> ".toList ++ it.source ++ "<br/>".toList ++ it.summary)
  else it.summary).take 2000

/-- The entry loop of `build_feed`: `idx` enumerates all items (including
any skipped by the priority guard); the first `replay` indices are re-dated
to `now + (replay - idx)` seconds and get a seed-dependent guid. -/
def feedEntries (now : Int) (replay : Nat) (seed : List Char) :
    Nat → List Item → List FeedEntry
  | _, [] => []
  | idx, it :: rest =>
    if it.priority = 1 ∨ it.priority = 2 ∨ it.priority = 3 then
      { title := it.title, link := it.link, desc := descOf it,
        pubDate := if idx < replay then now + ((replay - idx : Nat) : Int)
                   else it.published_ts,
        guidSrc := if idx < replay then
            it.title ++ '|' :: it.link ++ '|' :: seed
          else it.title ++ '|' :: it.link } :: feedEntries now replay seed (idx + 1) rest
    else feedEntries now replay seed (idx + 1) rest

/-- `build_feed(items, ..., replay, reseed)` from the source, reduced to the
entry sequence it emits.  `seed = reseed or now.strftime(...)`. -/
def build_feed (now : Int) (items : List Item) (replay : Nat)
    (reseed : List Char) : List FeedEntry :=
  feedEntries now replay (if reseed ≠ [] then reseed else timeToken now) 0 items

/-! ### Concrete instances used by witnesses and counterexamples -/

/-- Witness candidate: a violent incident in a watchlist city. -/
def wCand : Candidate :=
  ⟨"Riots erupt in Singapore".toList, "http://x.example/a".toList, [], 0, []⟩

/-- A finance text with a security exception that nevertheless matches the
HR/discipline rule further down the chain. -/
def hrFinanceText : List Char :=
  "Shares fell as governor appointed amid sanctions and clashes".toList

def replayCexItem : Item :=
  ⟨"Blast in Tokyo".toList, "http://t.example/x".toList, [], 1000, [], 95, 1⟩

def replayWitItem1 : Item :=
  ⟨"Fire in Osaka".toList, "http://o.example/1".toList, [], 2000, [], 90, 1⟩

def replayWitItem2 : Item :=
  ⟨"Storm near Doha".toList, "http://d.example/2".toList, [], 3000, [], 60, 2⟩

/-- An item outranking the duplicate pair below, whose title normalises to
the same string as theirs. -/
def dupCexTop : Item :=
  ⟨"Blast hits city (updated)".toList, "http://a.example/1".toList, [], 10, [], 100, 1⟩

/-- First member of an exact-duplicate pair (same title and link). -/
def dupCexA : Item :=
  ⟨"Blast hits city".toList, "http://b.example/2".toList, [], 5, [], 90, 1⟩

/-- Second member of the pair: identical title and link, older timestamp. -/
def dupCexB : Item :=
  ⟨"Blast hits city".toList, "http://b.example/2".toList, [], 4, [], 90, 1⟩

/-- Base title of the near-duplicate counterexample: itself starts with a
strippable marker. -/
def nearDupBase : List Char := "Update: clashes erupt".toList

/-- The same title with a leading BREAKING marker prepended. -/
def nearDupMarked : List Char := "BREAKING: Update: clashes erupt".toList

/-! ## Helper lemmas about the scorer -/

theorem addIf (c : Prop) [Decidable c] (s k : Nat) :
    (if c then s + k else s) = s + (if c then k else 0) := by
  split <;> simp

theorem trustedSource_nil : trustedSource [] = false := by decide

theorem srcIte (src : List Char) :
    (if src ≠ [] ∧ trustedSource src then (6 : Nat) else 0) =
      if trustedSource src then 6 else 0 := by
  rcases src with _ | ⟨c, s⟩
  · simp [trustedSource_nil]
  · simp

/-- The accumulator chain of `score_item` flattened into the sum of the
independent category, source and recency bonuses. -/
theorem score_flat (now : Int) (text : List Char) (ts : Int) (src : List Char) :
    score_item now text ts src =
      (if terrorMatch text then 90 else 0) + (if violenceMatch text then 85 else 0) +
      (if transHardMatch text then 70 else 0) + (if protestsMatch text then 55 else 0) +
      (if cyberMatch text then 50 else 0) + (if casualtyMatch text then 35 else 0) +
      (if hazardsMatch text then 35 else 0) + (if watchMatch text then 30 else 0) +
      (if trustedSource src then 6 else 0) +
      (if now - ts ≤ 6 * 3600 then 10 else if now - ts ≤ 24 * 3600 then 5 else 0) := by
  unfold score_item recency_bonus
  simp only [addIf, srcIte, Nat.zero_add]
  omega

/-! ## C1 -/

/-- C1: for every input text, publish timestamp and source name (and
evaluation time `now`), `score_item` returns exactly the sum of the
independent category bonuses of the pattern sets the text matches
(terror +90, violence +85, hard-transport +70, protest +55, cyber +50,
casualty +35, hazard +35, watchlist city or hub +30), plus +6 when the
source name matches the trusted-outlet list, plus a recency bonus of +10
when the item is at most 6 hours old, +5 when at most 24 hours old and +0
otherwise, with no upper cap. -/
theorem score_item_additive (now : Int) (text : List Char) (ts : Int) (src : List Char) :
    score_item now text ts src =
      (if terrorMatch text then 90 else 0) + (if violenceMatch text then 85 else 0) +
      (if transHardMatch text then 70 else 0) + (if protestsMatch text then 55 else 0) +
      (if cyberMatch text then 50 else 0) + (if casualtyMatch text then 35 else 0) +
      (if hazardsMatch text then 35 else 0) + (if watchMatch text then 30 else 0) +
      (if trustedSource src then 6 else 0) +
      (if now - ts ≤ 6 * 3600 then 10 else if now - ts ≤ 24 * 3600 then 5 else 0) :=
  score_flat now text ts src

/-! ## C8 -/

/-- C8: two items with identical category matches (same text, hence the same
pattern-set matches, and the same source-match bonus), evaluated at the same
evaluation time, score monotonically in the publish timestamp: the more
recent one receives at least the score of the older one. -/
theorem score_monotone_recent (now : Int) (text : List Char) (ts1 ts2 : Int)
    (src : List Char) (h : ts2 ≤ ts1) :
    score_item now text ts2 src ≤ score_item now text ts1 src := by
  rw [score_flat, score_flat]
  have hr : (if now - ts2 ≤ 6 * 3600 then (10 : Nat)
        else if now - ts2 ≤ 24 * 3600 then 5 else 0) ≤
      (if now - ts1 ≤ 6 * 3600 then (10 : Nat)
        else if now - ts1 ≤ 24 * 3600 then 5 else 0) := by
    split_ifs <;> omega
  omega

/-- Witness for C8 at a concrete input. -/
theorem score_monotone_recent_witness :
    (-100000 : Int) ≤ 0 ∧
      score_item 0 ("x".toList) (-100000) [] ≤ score_item 0 ("x".toList) 0 [] :=
  ⟨by decide, score_monotone_recent 0 ("x".toList) 0 (-100000) [] (by decide)⟩

/-! ## C2 -/

/-- Characterization of the loop body once the three gates have passed:
all that remains is the priority/floor test. -/
theorem processCandidate_gates (now : Int) (c : Candidate)
    (hT : c.title ≠ []) (hL : c.link ≠ [])
    (hN : is_noise (candText c) = false)
    (hR : is_region_relevant (candText c) c.link = true)
    (hS : is_high_signal (candText c) = true) :
    processCandidate now c =
      if to_priority (score_item now (candText c) c.published_ts c.source) = 0 ∨
          score_item now (candText c) c.published_ts c.source < MIN_SCORE_TO_INCLUDE then
        none
      else some ⟨c.title, c.link, c.summary, c.published_ts, c.source,
        score_item now (candText c) c.published_ts c.source,
        to_priority (score_item now (candText c) c.published_ts c.source)⟩ := by
  have hTL : ¬(c.title = [] ∨ c.link = []) := by rintro (h | h) <;> simp_all
  unfold processCandidate
  simp [hTL, hN, hR, hS]

/-- C2: once a candidate has passed the three gates (and the non-empty
title/link check), it is handed to the deduplicator iff its mapped priority
is nonzero and its score reaches the inclusion floor; the priority mapping
tests the thresholds highest-first (≥ 80 → 1, ≥ 50 → 2, ≥ 30 → 3, else 0);
consequently every produced item has priority in {1,2,3} and score at least
the floor. -/
theorem gate_handoff (now : Int) (c : Candidate)
    (hT : c.title ≠ []) (hL : c.link ≠ [])
    (hN : is_noise (candText c) = false)
    (hR : is_region_relevant (candText c) c.link = true)
    (hS : is_high_signal (candText c) = true) :
    (∀ s : Nat, to_priority s =
      if s ≥ 80 then 1 else if s ≥ 50 then 2 else if s ≥ 30 then 3 else 0) ∧
    ((processCandidate now c).isSome ↔
      (to_priority (score_item now (candText c) c.published_ts c.source) ≠ 0 ∧
        MIN_SCORE_TO_INCLUDE ≤ score_item now (candText c) c.published_ts c.source)) ∧
    (∀ it, processCandidate now c = some it →
      (it.priority = 1 ∨ it.priority = 2 ∨ it.priority = 3) ∧
      MIN_SCORE_TO_INCLUDE ≤ it.score) := by
  refine ⟨fun s => rfl, ?_, ?_⟩
  · rw [processCandidate_gates now c hT hL hN hR hS]
    split_ifs with hcond
    · simp only [Option.isSome_none, Bool.false_eq_true, false_iff]
      omega
    · simp only [Option.isSome_some, true_iff]
      omega
  · intro it hit
    rw [processCandidate_gates now c hT hL hN hR hS] at hit
    split_ifs at hit with hcond
    simp only [Option.some.injEq] at hit
    subst hit
    dsimp only
    unfold MIN_SCORE_TO_INCLUDE at hcond ⊢
    refine ⟨?_, by omega⟩
    unfold to_priority P1_THRESHOLD P2_THRESHOLD P3_THRESHOLD
    split_ifs <;> omega

/-- Witness for C2: the three gates pass on `wCand` and the hand-off
equivalence evaluates. -/
theorem gate_handoff_witness :
    (processCandidate 0 wCand).isSome = true := by
  have h := (gate_handoff 0 wCand (by decide) (by decide) (by decide) (by decide)
    (by decide)).2.1
  exact h.mpr ⟨by decide, by decide⟩

/-! ## C10 -/

/-- C10: every text accepted by the signal gate scores at least 35, because
each of the seven signal categories carries a bonus of at least 35 and the
scorer reuses the same pattern sets; consequently a candidate that passed
the noise, region and signal gates is never rejected by the
`pr == 0 or sc < MIN_SCORE_TO_INCLUDE` branch — it is always retained with
priority in {1,2,3}. -/
theorem high_signal_never_floored :
    (∀ (now : Int) (text : List Char) (ts : Int) (src : List Char),
      is_high_signal text = true → 35 ≤ score_item now text ts src) ∧
    (∀ (now : Int) (c : Candidate), c.title ≠ [] → c.link ≠ [] →
      is_noise (candText c) = false →
      is_region_relevant (candText c) c.link = true →
      is_high_signal (candText c) = true →
      ∃ it, processCandidate now c = some it ∧
        (it.priority = 1 ∨ it.priority = 2 ∨ it.priority = 3)) := by
  have hmain : ∀ (now : Int) (text : List Char) (ts : Int) (src : List Char),
      is_high_signal text = true → 35 ≤ score_item now text ts src := by
    intro now text ts src h
    rw [score_flat]
    simp only [is_high_signal, Bool.or_eq_true] at h
    rcases h with ((((((h | h) | h) | h) | h) | h) | h) <;> simp only [h, if_true] <;> omega
  refine ⟨hmain, ?_⟩
  intro now c hT hL hN hR hS
  have hsc : 35 ≤ score_item now (candText c) c.published_ts c.source :=
    hmain now (candText c) c.published_ts c.source hS
  have hpr : to_priority (score_item now (candText c) c.published_ts c.source) = 1 ∨
      to_priority (score_item now (candText c) c.published_ts c.source) = 2 ∨
      to_priority (score_item now (candText c) c.published_ts c.source) = 3 := by
    unfold to_priority P1_THRESHOLD P2_THRESHOLD P3_THRESHOLD
    split_ifs <;> omega
  have hcond : ¬(to_priority (score_item now (candText c) c.published_ts c.source) = 0 ∨
      score_item now (candText c) c.published_ts c.source < MIN_SCORE_TO_INCLUDE) := by
    unfold MIN_SCORE_TO_INCLUDE
    omega
  exact ⟨_, by rw [processCandidate_gates now c hT hL hN hR hS, if_neg hcond], hpr⟩

/-- Witness for C10 at a concrete high-signal candidate. -/
theorem high_signal_never_floored_witness :
    is_high_signal ("Flood warning near Tokyo".toList) = true ∧
      35 ≤ score_item 0 ("Flood warning near Tokyo".toList) 0 [] :=
  ⟨by decide, high_signal_never_floored.1 0 ("Flood warning near Tokyo".toList) 0 []
    (by decide)⟩

/-! ## C4 -/

/-- C4: a text that matches an out-of-scope geographic pattern is rejected
by the region gate only when it also fails both the in-scope allow-list and
the watchlist city/hub patterns; in particular a text mentioning both
"United States" and "Singapore" is accepted. -/
theorem region_gate_override :
    (∀ (text link : List Char), nonTargetMatch text = true →
      is_region_relevant text link = false →
      allowMatch text = false ∧ watchMatch text = false) ∧
    is_region_relevant ("United States reacts to Singapore incident".toList) [] = true := by
  constructor
  · intro text link hnt hrej
    unfold is_region_relevant at hrej
    by_cases ha : allowMatch text = true <;> by_cases hw : watchMatch text = true <;>
      simp_all
  · decide

/-- Witness for C4: the universal part applied to a concrete rejected text
that mentions the United States and nothing in scope. -/
theorem region_gate_override_witness :
    nonTargetMatch ("United States election results".toList) = true ∧
      allowMatch ("United States election results".toList) = false ∧
      watchMatch ("United States election results".toList) = false :=
  ⟨by decide,
    region_gate_override.1 ("United States election results".toList) [] (by decide)
      (by decide)⟩

/-! ## C3 -/

/-- Counterexample to C3 as stated: this text matches finance vocabulary,
fires none of the earlier noise rules and matches a security-exception
pattern ("clashes"), yet `is_noise` still returns `true`, because the text
also matches the HR/discipline rule ("appointed") which is checked after
the finance rule and is not subject to the security exception. -/
theorem noise_secexc_cex :
    financeMatch hrFinanceText = true ∧
    (sportsMatch hrFinanceText || sportsMetaMatch hrFinanceText) = false ∧
    (entertainmentMatch hrFinanceText || booksMatch hrFinanceText) = false ∧
    (obituaryMatch hrFinanceText &&
      !(violenceMatch hrFinanceText || terrorMatch hrFinanceText ||
        casualtyMatch hrFinanceText)) = false ∧
    featureMatch hrFinanceText = false ∧
    secExcMatch hrFinanceText = true ∧
    is_noise hrFinanceText = true := by
  refine ⟨by decide, by decide, by decide, by decide, by decide, by decide, by decide⟩

/-- C3 amended: for a text matching finance or governance-process vocabulary
on which none of the earlier noise rules fires, `is_noise` returns true iff
the text matches no security-exception pattern OR the HR/discipline rule
fires on it (i.e. it matches HR/discipline vocabulary without the
suspended-transport carve-out); in particular the spec's example text
containing both "shares fell" and "amid sanctions and clashes" is not
classified as noise. -/
theorem noise_finance_exception :
    (∀ text : List Char,
      (financeMatch text || govProcMatch text) = true →
      (sportsMatch text || sportsMetaMatch text) = false →
      (entertainmentMatch text || booksMatch text) = false →
      (obituaryMatch text &&
        !(violenceMatch text || terrorMatch text || casualtyMatch text)) = false →
      featureMatch text = false →
      (is_noise text = true ↔
        (secExcMatch text = false ∨
          (hrMatch text = true ∧ suspTransport text = false)))) ∧
    is_noise ("Shares fell amid sanctions and clashes".toList) = false := by
  constructor
  · intro text h5 h1 h2 h3 h4
    unfold is_noise
    simp only [h1, h2, h3, h4, h5, Bool.false_eq_true, if_false, Bool.true_and]
    by_cases hs : secExcMatch text = true <;>
      by_cases hh : hrMatch text = true <;>
      by_cases htr : suspTransport text = true <;>
      simp_all
  · decide

/-- Witness for C3's amended theorem, instantiated at the counterexample
text (finance vocabulary, security exception present, HR rule fires). -/
theorem noise_finance_exception_witness :
    is_noise hrFinanceText = true ↔
      (secExcMatch hrFinanceText = false ∨
        (hrMatch hrFinanceText = true ∧ suspTransport hrFinanceText = false)) :=
  noise_finance_exception.1 hrFinanceText (by decide) (by decide) (by decide)
    (by decide) (by decide)

/-! ## C9 -/

/-- Counterexample to C9 as stated: with `replay = 1` and evaluation time
5000, the single replayed entry is re-dated to 5001 = now + (replay - idx)
seconds, not to the current time itself. -/
theorem replay_redate_cex :
    (build_feed 5000 [replayCexItem] 1 []).map FeedEntry.pubDate = [5001] ∧
      (5001 : Int) ≠ 5000 := by
  refine ⟨by decide, by decide⟩

/-- C9 amended: in replay mode with count N, `build_feed` re-dates the first
N entries of the ranked list to the current time plus an offset of
(N - index) seconds (preserving rank order), and derives their identifiers
from title+link plus the caller-supplied reseed token or, when that is
empty, a time-derived token; every item beyond the first N keeps its
original publish timestamp and receives an identifier derived from
title+link alone.  (Stated for ranked lists whose items all carry priority
1–3, the invariant of `harvest`'s output.) -/
theorem replay_entries (now : Int) (items : List Item) (replay : Nat)
    (reseed : List Char)
    (hpr : ∀ it ∈ items, it.priority = 1 ∨ it.priority = 2 ∨ it.priority = 3) :
    ∀ (i : Nat) (it : Item), items.get? i = some it →
      (build_feed now items replay reseed).get? i = some
        { title := it.title, link := it.link, desc := descOf it,
          pubDate := if i < replay then now + ((replay - i : Nat) : Int)
                     else it.published_ts,
          guidSrc := if i < replay then
              it.title ++ '|' :: it.link ++ '|' ::
                (if reseed ≠ [] then reseed else timeToken now)
            else it.title ++ '|' :: it.link } := by
  have main : ∀ (l : List Item) (n : Nat),
      (∀ it ∈ l, it.priority = 1 ∨ it.priority = 2 ∨ it.priority = 3) →
      ∀ (i : Nat) (it : Item), l.get? i = some it →
      ∀ seed, (feedEntries now replay seed n l).get? i = some
        { title := it.title, link := it.link, desc := descOf it,
          pubDate := if n + i < replay then now + ((replay - (n + i) : Nat) : Int)
                     else it.published_ts,
          guidSrc := if n + i < replay then
              it.title ++ '|' :: it.link ++ '|' :: seed
            else it.title ++ '|' :: it.link } := by
    intro l
    induction l with
    | nil => intro n _ i it hit seed; simp at hit
    | cons x rest ih =>
      intro n hall i it hit seed
      have hx : x.priority = 1 ∨ x.priority = 2 ∨ x.priority = 3 :=
        hall x (List.mem_cons_self x rest)
      unfold feedEntries
      simp only [hx, if_true, if_pos hx]
      cases i with
      | zero =>
        simp only [List.get?_cons_zero, Option.some.injEq] at hit
        subst hit
        simp
      | succ i2 =>
        simp only [List.get?_cons_succ] at hit ⊢
        have := ih (n + 1) (fun y hy => hall y (List.mem_cons_of_mem x hy)) i2 it hit seed
        rw [this]
        have harith : n + 1 + i2 = n + (i2 + 1) := by omega
        rw [harith]
  intro i it hit
  have := main items 0 hpr i it hit (if reseed ≠ [] then reseed else timeToken now)
  unfold build_feed
  simpa using this

/-- Witness for C9's amended theorem: with two items and `replay = 1`, the
first entry is re-dated and reseeded, the second keeps its timestamp and
plain title+link identifier. -/
theorem replay_entries_witness :
    (build_feed 7000 [replayWitItem1, replayWitItem2] 1 ("tok".toList)).get? 1 =
      some ⟨"Storm near Doha".toList, "http://d.example/2".toList,
        descOf replayWitItem2, 3000,
        "Storm near Doha".toList ++ '|' :: "http://d.example/2".toList⟩ := by
  have h := replay_entries 7000 [replayWitItem1, replayWitItem2] 1 ("tok".toList)
    (by decide) 1 replayWitItem2 (by decide)
  simpa using h

/-! ## Deduplicator theory (shared by C5, C6, C7) -/

theorem keyGe_total (a b : Item) : keyGe a b = true ∨ keyGe b a = true := by
  unfold keyGe
  simp only [decide_eq_true_eq]
  omega

theorem keyGe_trans {a b c : Item} (h1 : keyGe a b = true) (h2 : keyGe b c = true) :
    keyGe a c = true := by
  unfold keyGe at *
  simp only [decide_eq_true_eq] at *
  omega

theorem mem_insertDesc (x y : Item) (l : List Item) :
    x ∈ insertDesc y l ↔ x = y ∨ x ∈ l := by
  induction l with
  | nil => simp [insertDesc]
  | cons z t ih =>
    unfold insertDesc
    split_ifs
    · simp
    · simp only [List.mem_cons, ih]
      tauto

theorem pairwise_insertDesc (x : Item) (l : List Item)
    (h : l.Pairwise (fun a b => keyGe a b = true)) :
    (insertDesc x l).Pairwise (fun a b => keyGe a b = true) := by
  induction l with
  | nil => simp [insertDesc]
  | cons z t ih =>
    unfold insertDesc
    split_ifs with hk
    · refine List.Pairwise.cons ?_ h
      intro y hy
      rcases List.mem_cons.mp hy with rfl | hy2
      · exact hk
      · exact keyGe_trans hk (List.rel_of_pairwise_cons h hy2)
    · refine List.Pairwise.cons ?_ (ih (List.Pairwise.of_cons h))
      intro y hy
      rcases (mem_insertDesc y x t).mp hy with hyx | hy2
      · rcases keyGe_total x z with h1 | h1
        · exact absurd h1 hk
        · exact hyx ▸ h1
      · exact List.rel_of_pairwise_cons h hy2

theorem sortDesc_pairwise (l : List Item) :
    (sortDesc l).Pairwise (fun a b => keyGe a b = true) := by
  induction l with
  | nil => simp [sortDesc]
  | cons x t ih => exact pairwise_insertDesc x (sortDesc t) ih

theorem sortDesc_id (l : List Item)
    (h : l.Pairwise (fun a b => keyGe a b = true)) : sortDesc l = l := by
  induction l with
  | nil => rfl
  | cons x t ih =>
    have hstep : sortDesc (x :: t) = insertDesc x (sortDesc t) := rfl
    rw [hstep, ih (List.Pairwise.of_cons h)]
    cases t with
    | nil => rfl
    | cons y t2 =>
      have hxy : keyGe x y = true :=
        List.rel_of_pairwise_cons h (List.mem_cons_self y t2)
      unfold insertDesc
      rw [if_pos hxy]

theorem dedupWalk_cons_mem (it : Item) (rest : List Item) (H N : List (List Char))
    (h : hashKey it ∈ H) : dedupWalk (it :: rest) H N = dedupWalk rest H N := by
  simp [dedupWalk, h]

theorem dedupWalk_cons_sim (it : Item) (rest : List Item) (H N : List (List Char))
    (h1 : hashKey it ∉ H)
    (h2 : (N.any fun p => ratioGE96 (normalize_title it.title) p) = true) :
    dedupWalk (it :: rest) H N = dedupWalk rest H N := by
  simp [dedupWalk, h1, h2]

theorem dedupWalk_cons_keep (it : Item) (rest : List Item) (H N : List (List Char))
    (h1 : hashKey it ∉ H)
    (h2 : (N.any fun p => ratioGE96 (normalize_title it.title) p) = false) :
    dedupWalk (it :: rest) H N =
      it :: dedupWalk rest (hashKey it :: H) (N ++ [normalize_title it.title]) := by
  simp [dedupWalk, h1, h2]

theorem dedupWalk_sublist : ∀ (s : List Item) (H N : List (List Char)),
    (dedupWalk s H N).Sublist s := by
  intro s
  induction s with
  | nil => intro H N; simp [dedupWalk]
  | cons it rest ih =>
    intro H N
    by_cases h1 : hashKey it ∈ H
    · rw [dedupWalk_cons_mem it rest H N h1]
      exact (ih H N).cons it
    · by_cases h2 : (N.any fun p => ratioGE96 (normalize_title it.title) p) = true
      · rw [dedupWalk_cons_sim it rest H N h1 h2]
        exact (ih H N).cons it
      · rw [dedupWalk_cons_keep it rest H N h1 (Bool.eq_false_iff.mpr h2)]
        exact (ih (hashKey it :: H) _).cons₂ it

theorem dedup_pairwise (l : List Item) :
    (dedup l).Pairwise (fun a b => keyGe a b = true) :=
  (sortDesc_pairwise l).sublist (dedupWalk_sublist (sortDesc l) [] [])

theorem dedupWalk_idem_gen : ∀ (s : List Item) (H N H2 N2 : List (List Char)),
    (∀ x ∈ H2, x ∈ H) → (∀ x ∈ N2, x ∈ N) →
    dedupWalk (dedupWalk s H N) H2 N2 = dedupWalk s H N := by
  intro s
  induction s with
  | nil => intro H N H2 N2 _ _; simp [dedupWalk]
  | cons it rest ih =>
    intro H N H2 N2 hH hN
    by_cases h1 : hashKey it ∈ H
    · rw [dedupWalk_cons_mem it rest H N h1]
      exact ih H N H2 N2 hH hN
    · by_cases h2 : (N.any fun p => ratioGE96 (normalize_title it.title) p) = true
      · rw [dedupWalk_cons_sim it rest H N h1 h2]
        exact ih H N H2 N2 hH hN
      · have h1b : hashKey it ∉ H2 := fun hmem => h1 (hH _ hmem)
        have h2b : (N2.any fun p => ratioGE96 (normalize_title it.title) p) = false := by
          refine Bool.eq_false_iff.mpr ?_
          intro habs
          rcases List.any_eq_true.mp habs with ⟨p, hp, hrp⟩
          exact h2 (List.any_eq_true.mpr ⟨p, hN p hp, hrp⟩)
        rw [dedupWalk_cons_keep it rest H N h1 (Bool.eq_false_iff.mpr h2),
            dedupWalk_cons_keep it _ H2 N2 h1b h2b]
        congr 1
        refine ih (hashKey it :: H) (N ++ [normalize_title it.title])
          (hashKey it :: H2) (N2 ++ [normalize_title it.title]) ?_ ?_
        · intro x hx
          rcases List.mem_cons.mp hx with rfl | hx2
          · exact List.mem_cons_self _ _
          · exact List.mem_cons_of_mem _ (hH x hx2)
        · intro x hx
          rcases List.mem_append.mp hx with hx2 | hx2
          · exact List.mem_append_left _ (hN x hx2)
          · exact List.mem_append_right _ hx2

/-! ## C7 -/

/-- C7: the deduplicator is idempotent — applying the sort-and-deduplicate
step to its own output drops nothing further and changes no order. -/
theorem dedup_idempotent (l : List Item) : dedup (dedup l) = dedup l := by
  have h1 : dedup (dedup l) = dedupWalk (sortDesc (dedup l)) [] [] := rfl
  rw [h1, sortDesc_id _ (dedup_pairwise l)]
  exact dedupWalk_idem_gen (sortDesc l) [] [] [] []
    (fun x hx => absurd hx (List.not_mem_nil x))
    (fun x hx => absurd hx (List.not_mem_nil x))

/-! ## C5 -/

theorem dedupWalk_count (k : List Char) :
    ∀ (s : List Item) (H N : List (List Char)),
      ((dedupWalk s H N).countP (fun i => hashKey i == k) ≤ 1) ∧
      (k ∈ H → (dedupWalk s H N).countP (fun i => hashKey i == k) = 0) := by
  intro s
  induction s with
  | nil => intro H N; simp [dedupWalk]
  | cons it rest ih =>
    intro H N
    by_cases h1 : hashKey it ∈ H
    · rw [dedupWalk_cons_mem it rest H N h1]
      exact ih H N
    · by_cases h2 : (N.any fun p => ratioGE96 (normalize_title it.title) p) = true
      · rw [dedupWalk_cons_sim it rest H N h1 h2]
        exact ih H N
      · rw [dedupWalk_cons_keep it rest H N h1 (Bool.eq_false_iff.mpr h2)]
        constructor
        · rw [List.countP_cons]
          by_cases hk : hashKey it = k
          · subst hk
            have h0 : (dedupWalk rest (hashKey it :: H)
                (N ++ [normalize_title it.title])).countP
                (fun i => hashKey i == hashKey it) = 0 :=
              (ih _ _).2 (List.mem_cons_self _ _)
            simp [h0]
          · have hle := (ih (hashKey it :: H) (N ++ [normalize_title it.title])).1
            have hbe : (hashKey it == k) = false := beq_eq_false_iff_ne.mpr hk
            simp [hbe]
            omega
        · intro hkH
          have hk : hashKey it ≠ k := fun he => h1 (he ▸ hkH)
          have h0 : (dedupWalk rest (hashKey it :: H)
              (N ++ [normalize_title it.title])).countP
              (fun i => hashKey i == k) = 0 :=
            (ih _ _).2 (List.mem_cons_of_mem _ hkH)
          have hbe : (hashKey it == k) = false := beq_eq_false_iff_ne.mpr hk
          rw [List.countP_cons]
          simp [h0, hbe]

/-- Counterexample to C5 as stated: the pair `dupCexA`, `dupCexB` have
identical title and link, but in the presence of the higher-ranked
near-duplicate title `dupCexTop` the deduplicator retains zero items of the
pair, not exactly one — both are dropped by the ≥ 0.96 similarity rule
before the exact-hash rule ever keeps one. -/
theorem exact_dup_cex :
    dupCexA.title = dupCexB.title ∧ dupCexA.link = dupCexB.link ∧
    (dedup [dupCexA, dupCexTop, dupCexB]).countP
      (fun i => hashKey i == hashKey dupCexA) = 0 := by
  refine ⟨by decide, by decide, by decide⟩

/-- C5 amended: for every input list, at most one item with a given
title+link pair survives the deduplicator (regardless of input order), and
when the input consists of exactly the two records with identical title and
link, exactly one survives. -/
theorem exact_dup_amended :
    (∀ (l : List Item) (k : List Char),
      (dedup l).countP (fun i => hashKey i == k) ≤ 1) ∧
    (∀ i1 i2 : Item, i1.title = i2.title → i1.link = i2.link →
      (dedup [i1, i2]).countP (fun i => hashKey i == hashKey i1) = 1) := by
  constructor
  · intro l k
    exact (dedupWalk_count k (sortDesc l) [] []).1
  · intro i1 i2 ht hl
    have hk : hashKey i2 = hashKey i1 := by
      unfold hashKey
      rw [ht, hl]
    have hsort : sortDesc [i1, i2] = if keyGe i1 i2 then [i1, i2] else [i2, i1] := rfl
    unfold dedup
    rw [hsort]
    split_ifs with hge
    · rw [dedupWalk_cons_keep i1 [i2] [] [] (List.not_mem_nil _) rfl,
          dedupWalk_cons_mem i2 [] _ _ (by rw [hk]; exact List.mem_cons_self _ _)]
      simp [dedupWalk, List.countP_cons]
    · rw [dedupWalk_cons_keep i2 [i1] [] [] (List.not_mem_nil _) rfl,
          dedupWalk_cons_mem i1 [] _ _ (by rw [← hk]; exact List.mem_cons_self _ _)]
      simp [dedupWalk, List.countP_cons, hk]

/-- Witness for C5's amended theorem at a concrete duplicate pair. -/
theorem exact_dup_amended_witness :
    (dedup [dupCexA, dupCexB]).countP (fun i => hashKey i == hashKey dupCexA) = 1 :=
  exact_dup_amended.2 dupCexA dupCexB (by decide) (by decide)

/-! ## Similarity of identical strings -/

theorem cpl_self (l : List Char) : cpl l l = l.length := by
  induction l with
  | nil => rfl
  | cons c t ih => simp [cpl, ih]

theorem cpl_le_left : ∀ (a b : List Char), cpl a b ≤ a.length := by
  intro a
  induction a with
  | nil => intro b; cases b <;> simp [cpl]
  | cons c t ih =>
    intro b
    cases b with
    | nil => simp [cpl]
    | cons d u =>
      unfold cpl
      split_ifs
      · simpa using ih u
      · simp

theorem bestFold_fix (x : List Char) (cs : List (Nat × Nat)) :
    cs.foldl (fun best ij =>
      if best.2.2 < cpl (x.drop ij.1) (x.drop ij.2) then
        (ij.1, ij.2, cpl (x.drop ij.1) (x.drop ij.2))
      else best) (0, 0, x.length) = (0, 0, x.length) := by
  induction cs with
  | nil => rfl
  | cons ij t ih =>
    rw [List.foldl_cons]
    have hk : cpl (x.drop ij.1) (x.drop ij.2) ≤ x.length := by
      have h1 := cpl_le_left (x.drop ij.1) (x.drop ij.2)
      have h2 := List.length_drop ij.1 x
      omega
    rw [if_neg (by dsimp only; omega)]
    exact ih

theorem bestMatch_self (x : List Char) (hx : x ≠ []) : bestMatch x x = (0, 0, x.length) := by
  obtain ⟨c, t, rfl⟩ := List.exists_cons_of_ne_nil hx
  unfold bestMatch
  obtain ⟨cs, hcs⟩ : ∃ cs,
      ((List.range (c :: t).length).flatMap fun i =>
        (List.range (c :: t).length).map fun j => (i, j)) = (0, 0) :: cs := by
    rw [List.length_cons, List.range_succ_eq_map, List.flatMap_cons, List.map_cons,
      List.cons_append]
    exact ⟨_, rfl⟩
  rw [hcs, List.foldl_cons]
  have hpos : (((0, 0, 0) : Nat × Nat × Nat)).2.2 <
      cpl ((c :: t).drop 0) ((c :: t).drop 0) := by
    simp [cpl_self]
  rw [if_pos hpos, List.drop_zero, cpl_self]
  simpa using bestFold_fix (c :: t) cs

theorem matchSumF_nil (fuel : Nat) : matchSumF fuel [] [] = 0 := by
  cases fuel with
  | zero => rfl
  | succ f => rfl

theorem matchSum_self (x : List Char) : matchSum x x = x.length := by
  unfold matchSum
  rcases eq_or_ne x [] with rfl | hx
  · rfl
  · have hlen : x.length ≠ 0 := by
      simpa [List.length_eq_zero] using hx
    unfold matchSumF
    rw [bestMatch_self x hx]
    dsimp only
    rw [if_neg hlen]
    simp [List.drop_length, matchSumF_nil]

theorem ratioGE96_self (x : List Char) : ratioGE96 x x = true := by
  unfold ratioGE96
  rcases eq_or_ne x [] with rfl | hx
  · rfl
  · have hlen : x.length ≠ 0 := by
      simpa [List.length_eq_zero] using hx
    rw [if_neg (by omega)]
    simp only [matchSum_self, decide_eq_true_eq]
    omega

/-! ## No two retained items share a normalised title -/

theorem dedupWalk_not_sim : ∀ (s : List Item) (H N : List (List Char)) (x : Item),
    x ∈ dedupWalk s H N →
    ∀ p ∈ N, ratioGE96 (normalize_title x.title) p = false := by
  intro s
  induction s with
  | nil => intro H N x hx; simp [dedupWalk] at hx
  | cons it rest ih =>
    intro H N x hx
    by_cases h1 : hashKey it ∈ H
    · rw [dedupWalk_cons_mem it rest H N h1] at hx
      exact ih H N x hx
    · by_cases h2 : (N.any fun p => ratioGE96 (normalize_title it.title) p) = true
      · rw [dedupWalk_cons_sim it rest H N h1 h2] at hx
        exact ih H N x hx
      · rw [dedupWalk_cons_keep it rest H N h1 (Bool.eq_false_iff.mpr h2)] at hx
        rcases List.mem_cons.mp hx with rfl | hx2
        · intro p hp
          by_contra habs
          exact h2 (List.any_eq_true.mpr
            ⟨p, hp, by revert habs; cases ratioGE96 (normalize_title x.title) p <;> simp⟩)
        · intro p hp
          exact ih _ _ x hx2 p (List.mem_append_left _ hp)

theorem dedupWalk_norm_pairwise : ∀ (s : List Item) (H N : List (List Char)),
    (dedupWalk s H N).Pairwise
      (fun a b => ratioGE96 (normalize_title b.title) (normalize_title a.title) = false) := by
  intro s
  induction s with
  | nil => intro H N; simp [dedupWalk]
  | cons it rest ih =>
    intro H N
    by_cases h1 : hashKey it ∈ H
    · rw [dedupWalk_cons_mem it rest H N h1]
      exact ih H N
    · by_cases h2 : (N.any fun p => ratioGE96 (normalize_title it.title) p) = true
      · rw [dedupWalk_cons_sim it rest H N h1 h2]
        exact ih H N
      · rw [dedupWalk_cons_keep it rest H N h1 (Bool.eq_false_iff.mpr h2)]
        refine List.Pairwise.cons ?_ (ih _ _)
        intro b hb
        exact dedupWalk_not_sim _ _ _ b hb (normalize_title it.title)
          (List.mem_append_right _ (List.mem_singleton.mpr rfl))

/-- The deduplicator never retains two items whose titles normalise to the
same string (the later one is dropped by the ≥ 0.96 near-duplicate rule,
since identical strings have ratio 1). -/
theorem dedup_norm_distinct (l : List Item) :
    (dedup l).Pairwise
      (fun a b => normalize_title a.title ≠ normalize_title b.title) := by
  refine (dedupWalk_norm_pairwise (sortDesc l) [] []).imp ?_
  intro a b hab heq
  rw [heq, ratioGE96_self] at hab
  exact absurd hab (by simp)

/-! ## Character-level lemmas for `normalize_title` -/

theorem lowerChar_toNat (c : Char) :
    lowerChar c = c ∨
    ((lowerChar c).toNat = c.toNat + 32 ∧ 65 ≤ c.toNat ∧ c.toNat ≤ 90) := by
  unfold lowerChar
  split
  · rename_i h
    right
    obtain ⟨h1, h2⟩ := h
    refine ⟨?_, h1, h2⟩
    interval_cases h : c.toNat <;> simp_all
  · left; rfl

/-- Lowercasing maps nothing new onto a character outside the lowercase
range. -/
theorem lowerChar_eq_low {c d : Char} (hd : d.toNat < 97 ∨ 122 < d.toNat)
    (h : lowerChar c = d) : c = d := by
  rcases lowerChar_toNat c with h1 | ⟨h1, h2, h3⟩
  · rw [← h1]; exact h
  · have := congrArg Char.toNat h
    omega

theorem parenFree_iff (l : List Char) :
    parenFreeB l = true ↔ ∀ c ∈ l, c ≠ '(' ∧ c ≠ ')' := by
  unfold parenFreeB
  rw [List.all_eq_true]
  constructor
  · intro h c hc
    have := h c hc
    simp only [Bool.not_eq_true', Bool.or_eq_false_iff] at this
    constructor
    · intro he; rw [he] at this; simp at this
    · intro he; rw [he] at this; simp at this
  · intro h c hc
    obtain ⟨h1, h2⟩ := h c hc
    simp [h1, h2]

theorem parenFreeB_lower {t : List Char} (h : parenFreeB t = true) :
    parenFreeB (lowerAll t) = true := by
  rw [parenFree_iff] at h ⊢
  intro c hc
  rcases List.mem_map.mp hc with ⟨c0, hc0, rfl⟩
  obtain ⟨h1, h2⟩ := h c0 hc0
  constructor
  · intro he
    exact h1 (lowerChar_eq_low (by left; decide) he)
  · intro he
    exact h2 (lowerChar_eq_low (by left; decide) he)

theorem spc_not_alnum {c : Char} (h : spc c = true) : alnum09 c = false := by
  have hn : c.toNat = 32 ∨ c.toNat = 9 ∨ c.toNat = 10 ∨ c.toNat = 13 ∨
      c.toNat = 11 ∨ c.toNat = 12 := by
    unfold spc at h
    simp only [Bool.or_eq_true, decide_eq_true_eq] at h
    rcases h with ((((h | h) | h) | h) | h) | h
    · left; rw [h]; rfl
    · right; left; rw [h]; rfl
    · right; right; left; rw [h]; rfl
    · right; right; right; left; rw [h]; rfl
    · right; right; right; right; left; exact h
    · right; right; right; right; right; exact h
  unfold alnum09
  simp only [Bool.or_eq_false_iff, Bool.and_eq_false_iff, decide_eq_false_iff_not]
  omega

theorem dash_not_alnum {c : Char} (h : dashChar c = true) : alnum09 c = false := by
  unfold dashChar at h
  simp only [Bool.or_eq_true, decide_eq_true_eq] at h
  rcases h with (h | h) | h <;> subst h <;> decide

/-! ## Word-splitting lemmas -/

/-- Discharge an if whose Bool condition is false. -/
theorem iteF {α : Sort _} {b : Bool} (h : b = false) (x y : α) :
    (if b = true then x else y) = y := by
  rw [h]
  simp

/-- Discharge an if whose Bool condition is true. -/
theorem iteT {α : Sort _} {b : Bool} (h : b = true) (x y : α) :
    (if b = true then x else y) = x := by
  rw [h]
  simp

theorem wordsAcc_nil (cur : List Char) :
    wordsAcc cur [] = if cur = [] then [] else [cur.reverse] := rfl

theorem wordsAcc_cons (cur : List Char) (c : Char) (t : List Char) :
    wordsAcc cur (c :: t) =
      if alnum09 c = true then wordsAcc (c :: cur) t
      else if cur = [] then wordsAcc [] t
      else cur.reverse :: wordsAcc [] t := rfl

theorem collDashAux_cons (b : Bool) (c : Char) (t : List Char) :
    collDashAux b (c :: t) =
      if dashChar c = true then
        (if b then collDashAux true t else '-' :: collDashAux true t)
      else c :: collDashAux false t := rfl

/-- Appending characters that are all non-alphanumeric does not change the
word list. -/
theorem wordsAcc_append_nonalnum {s : List Char} (hs : ∀ c ∈ s, alnum09 c = false) :
    ∀ (l cur : List Char), wordsAcc cur (l ++ s) = wordsAcc cur l := by
  have base : ∀ s2, (∀ c ∈ s2, alnum09 c = false) →
      ∀ cur, wordsAcc cur s2 = wordsAcc cur [] := by
    intro s2
    induction s2 with
    | nil => intro _ cur; rfl
    | cons c t ih =>
      intro hall cur
      have hc : alnum09 c = false := hall c (List.mem_cons_self c t)
      have ih2 := ih (fun d hd => hall d (List.mem_cons_of_mem c hd))
      rw [wordsAcc_cons, iteF hc, ih2 [], wordsAcc_nil, wordsAcc_nil]
      rw [if_pos rfl]
  intro l
  induction l with
  | nil =>
    intro cur
    rw [List.nil_append]
    exact base s hs cur
  | cons d l2 ih =>
    intro cur
    rw [List.cons_append, wordsAcc_cons, wordsAcc_cons]
    by_cases hd : alnum09 d = true
    · rw [iteT hd, iteT hd]
      exact ih (d :: cur)
    · have hd2 : alnum09 d = false := Bool.eq_false_iff.mpr hd
      rw [iteF hd2, iteF hd2]
      by_cases hcur : cur = []
      · rw [if_pos hcur, if_pos hcur]
        exact ih []
      · rw [if_neg hcur, if_neg hcur, ih []]

/-- Prepending characters that are all non-alphanumeric does not change the
word list (from an empty accumulator). -/
theorem wordsAcc_front_nonalnum : ∀ (s : List Char),
    (∀ c ∈ s, alnum09 c = false) → ∀ l, wordsAcc [] (s ++ l) = wordsAcc [] l := by
  intro s
  induction s with
  | nil => intro _ l; rfl
  | cons c t ih =>
    intro hall l
    have hc : alnum09 c = false := hall c (List.mem_cons_self c t)
    rw [List.cons_append, wordsAcc_cons, iteF hc, if_pos rfl]
    exact ih (fun d hd => hall d (List.mem_cons_of_mem c hd)) l

/-- Collapsing dash runs does not change the word list (dashes are not
alphanumeric). -/
theorem wordsAcc_collDash : ∀ (x : List Char),
    (∀ cur, wordsAcc cur (collDashAux false x) = wordsAcc cur x) ∧
    (wordsAcc [] (collDashAux true x) = wordsAcc [] x) := by
  intro x
  induction x with
  | nil => exact ⟨fun cur => rfl, rfl⟩
  | cons c t ih =>
    obtain ⟨ih1, ih2⟩ := ih
    by_cases hc : dashChar c = true
    · have hna : alnum09 c = false := dash_not_alnum hc
      constructor
      · intro cur
        rw [collDashAux_cons, iteT hc]
        simp only [Bool.false_eq_true, if_false]
        rw [wordsAcc_cons, wordsAcc_cons,
          iteF (show alnum09 '-' = false from by decide), iteF hna]
        by_cases hcur : cur = []
        · rw [if_pos hcur, if_pos hcur, ih2]
        · rw [if_neg hcur, if_neg hcur, ih2]
      · rw [collDashAux_cons, iteT hc]
        simp only [if_true]
        rw [ih2, wordsAcc_cons, iteF hna, if_pos rfl]
    · have hc2 : dashChar c = false := Bool.eq_false_iff.mpr hc
      constructor
      · intro cur
        rw [collDashAux_cons, iteF hc2, wordsAcc_cons, wordsAcc_cons]
        by_cases ha : alnum09 c = true
        · rw [iteT ha, iteT ha]
          exact ih1 (c :: cur)
        · have ha2 : alnum09 c = false := Bool.eq_false_iff.mpr ha
          rw [iteF ha2, iteF ha2]
          by_cases hcur : cur = []
          · rw [if_pos hcur, if_pos hcur, ih1 []]
          · rw [if_neg hcur, if_neg hcur, ih1 []]
      · rw [collDashAux_cons, iteF hc2, wordsAcc_cons, wordsAcc_cons]
        by_cases ha : alnum09 c = true
        · rw [iteT ha, iteT ha]
          exact ih1 [c]
        · have ha2 : alnum09 c = false := Bool.eq_false_iff.mpr ha
          rw [iteF ha2, iteF ha2, if_pos rfl, if_pos rfl]
          exact ih1 []

theorem alnumWords_collDash (x : List Char) :
    alnumWords (collapseDashes x) = alnumWords x :=
  (wordsAcc_collDash x).1 []

/-! ## Whitespace-stripping lemmas -/

theorem dropWhile_append_all {p : Char → Bool} {a : List Char}
    (ha : ∀ c ∈ a, p c = true) (b : List Char) :
    (a ++ b).dropWhile p = b.dropWhile p := by
  induction a with
  | nil => rfl
  | cons c t ih =>
    rw [List.cons_append, List.dropWhile_cons,
      iteT (ha c (List.mem_cons_self c t))]
    exact ih (fun d hd => ha d (List.mem_cons_of_mem c hd))

theorem dropWhile_eq_nil_of_all {p : Char → Bool} {a : List Char}
    (ha : ∀ c ∈ a, p c = true) : a.dropWhile p = [] := by
  have := dropWhile_append_all ha []
  simpa using this

theorem dropWhile_cases (p : Char → Bool) : ∀ (l : List Char),
    (l.dropWhile p = [] ∧ ∀ c ∈ l, p c = true) ∨
    (∃ e t2, l.dropWhile p = e :: t2 ∧ p e = false ∧ e ∈ l) := by
  intro l
  induction l with
  | nil => left; exact ⟨rfl, by simp⟩
  | cons c t ih =>
    by_cases hc : p c = true
    · rw [List.dropWhile_cons, iteT hc] at *
      rcases ih with ⟨h1, h2⟩ | ⟨e, t2, he, hpe, hmem⟩
      · left
        refine ⟨h1, ?_⟩
        intro d hd
        rcases List.mem_cons.mp hd with rfl | hd2
        · exact hc
        · exact h2 d hd2
      · right
        exact ⟨e, t2, he, hpe, List.mem_cons_of_mem c hmem⟩
    · right
      refine ⟨c, t, ?_, Bool.eq_false_iff.mpr hc, List.mem_cons_self c t⟩
      rw [List.dropWhile_cons, iteF (Bool.eq_false_iff.mpr hc)]

theorem dropWhile_append_stop {p : Char → Bool} {a : List Char} (e : Char)
    (t2 : List Char) (he : a.dropWhile p = e :: t2) (b : List Char) :
    (a ++ b).dropWhile p = e :: (t2 ++ b) := by
  induction a with
  | nil => simp at he
  | cons c t ih =>
    by_cases hc : p c = true
    · rw [List.dropWhile_cons, iteT hc] at he
      rw [List.cons_append, List.dropWhile_cons, iteT hc]
      exact ih he
    · rw [List.dropWhile_cons, iteF (Bool.eq_false_iff.mpr hc)] at he
      rw [List.cons_append, List.dropWhile_cons, iteF (Bool.eq_false_iff.mpr hc)]
      rw [List.cons_eq_cons] at he
      obtain ⟨rfl, rfl⟩ := he
      rfl

theorem stripWsRight_decomp (u : List Char) :
    ∃ s, u = stripWsRight u ++ s ∧ ∀ c ∈ s, spc c = true := by
  refine ⟨(u.reverse.takeWhile spc).reverse, ?_, ?_⟩
  · conv_lhs => rw [← List.reverse_reverse u,
      ← List.takeWhile_append_dropWhile spc u.reverse]
    rw [List.reverse_append]
    rfl
  · intro c hc
    rw [List.mem_reverse] at hc
    exact List.mem_takeWhile_imp hc

theorem stripWsRight_cons {c : Char} {u2 : List Char}
    (h : ¬ ∀ d ∈ c :: u2, spc d = true) :
    stripWsRight (c :: u2) = c :: stripWsRight u2 := by
  unfold stripWsRight
  rw [List.reverse_cons]
  rcases dropWhile_cases spc u2.reverse with ⟨hnil, hall⟩ | ⟨e, t2, he, hpe, hmem⟩
  · have hc : spc c = false := by
      rcases hb : spc c with _ | _
      · rfl
      · exfalso
        refine h ?_
        intro d hd
        rcases List.mem_cons.mp hd with rfl | hd2
        · exact hb
        · exact hall d (List.mem_reverse.mpr hd2)
    rw [dropWhile_append_all (fun d hd => hall d hd) [c], List.dropWhile_cons,
      iteF hc, hnil]
    rfl
  · rw [dropWhile_append_stop e t2 he [c], he, List.reverse_cons, List.reverse_append]
    simp

/-! ## Trailing-parenthetical lemmas -/

theorem stripParen_cons_eq (c : Char) (t : List Char) :
    stripTrailingParen (c :: t) =
      if parenSuffix (c :: t) = true then [] else c :: stripTrailingParen t := rfl

theorem getLastD_mem {l : List Char} (h : l ≠ []) (d : Char) : l.getLastD d ∈ l := by
  rcases List.eq_nil_or_concat l with rfl | ⟨l2, e, rfl⟩
  · exact absurd rfl h
  · rw [List.concat_eq_append, List.getLastD_concat]
    exact List.mem_append_right _ (List.mem_singleton.mpr rfl)

theorem parenSuffix_rparen {s : List Char} (h : parenSuffix s = true) : ')' ∈ s := by
  unfold parenSuffix at h
  split at h
  · rename_i rest heq
    rw [Bool.and_eq_true, Bool.and_eq_true] at h
    obtain ⟨⟨h1, h2⟩, h3⟩ := h
    have h4 : rest.getLastD ' ' = ')' := of_decide_eq_true h3
    have hne : rest ≠ [] := by
      intro hre
      subst hre
      simp at h1
    have h5 : ')' ∈ rest := h4 ▸ getLastD_mem hne ' '
    have h6 : ')' ∈ s.dropWhile spc := by
      rw [heq]
      exact List.mem_cons_of_mem _ h5
    exact (List.dropWhile_sublist spc).mem h6
  · exact absurd h (by simp)

theorem stripTrailingParen_id : ∀ {l : List Char},
    (∀ c ∈ l, c ≠ ')') → stripTrailingParen l = l := by
  intro l
  induction l with
  | nil => intro _; rfl
  | cons c t ih =>
    intro h
    have hps : parenSuffix (c :: t) = false := by
      rcases hb : parenSuffix (c :: t) with _ | _
      · rfl
      · exact absurd rfl (h ')' (parenSuffix_rparen hb))
    rw [stripParen_cons_eq, iteF hps,
      ih (fun d hd => h d (List.mem_cons_of_mem c hd))]

theorem parenSuffix_sep {q : List Char} (hq : q ≠ []) (hq2 : ∀ c ∈ q, c ≠ ')')
    (v : List Char) (hv : ∀ c ∈ v, spc c = true) :
    parenSuffix (v ++ ' ' :: '(' :: (q ++ [')'])) = true := by
  have hd : (v ++ ' ' :: '(' :: (q ++ [')'])).dropWhile spc = '(' :: (q ++ [')']) := by
    rw [dropWhile_append_all hv, List.dropWhile_cons,
      iteT (show spc ' ' = true from rfl), List.dropWhile_cons,
      iteF (show spc '(' = false from rfl)]
  unfold parenSuffix
  rw [hd]
  have hlen : 1 ≤ q.length := List.length_pos.mpr hq
  have h1 : decide (2 ≤ (q ++ [')']).length) = true := by
    rw [decide_eq_true_eq, List.length_append]
    simp
    omega
  have h2 : (q ++ [')']).dropLast.all (fun c => !(c = ')')) = true := by
    rw [List.dropLast_concat, List.all_eq_true]
    intro c hc
    simp [hq2 c hc]
  have h3 : decide ((q ++ [')']).getLastD ' ' = ')') = true := by
    rw [decide_eq_true_eq, List.getLastD_concat]
  split
  · rename_i rest heq
    rw [List.cons_eq_cons] at heq
    obtain ⟨-, hrest⟩ := heq
    subst hrest
    rw [h1, h2, h3]
    rfl
  · rename_i hnm
    exact absurd rfl (hnm (q ++ [')']))

theorem parenSuffix_notparen {v : List Char} (e : Char) (t2 : List Char)
    (he : v.dropWhile spc = e :: t2) (hne : e ≠ '(') (b : List Char) :
    parenSuffix (v ++ b) = false := by
  unfold parenSuffix
  rw [dropWhile_append_stop e t2 he b]
  split
  · rename_i rest heq
    rw [List.cons_eq_cons] at heq
    exact absurd heq.1 hne
  · rfl

theorem stripTrailingParen_sep : ∀ (u : List Char), (∀ c ∈ u, c ≠ '(' ∧ c ≠ ')') →
    ∀ (q : List Char), q ≠ [] → (∀ c ∈ q, c ≠ ')') →
    stripTrailingParen (u ++ ' ' :: '(' :: (q ++ [')'])) = stripWsRight u := by
  intro u
  induction u with
  | nil =>
    intro _ q hq hq2
    rw [List.nil_append, stripParen_cons_eq,
      iteT (by simpa using parenSuffix_sep hq hq2 [] (by simp))]
    rfl
  | cons c u2 ih =>
    intro hu q hq hq2
    by_cases hall : ∀ d ∈ c :: u2, spc d = true
    · have hps : parenSuffix ((c :: u2) ++ ' ' :: '(' :: (q ++ [')'])) = true :=
        parenSuffix_sep hq hq2 (c :: u2) hall
      rw [List.cons_append, stripParen_cons_eq, iteT (by simpa using hps)]
      unfold stripWsRight
      rw [dropWhile_eq_nil_of_all (fun d hd => hall d (List.mem_reverse.mp hd))]
      rfl
    · have hps : parenSuffix ((c :: u2) ++ ' ' :: '(' :: (q ++ [')'])) = false := by
        rcases dropWhile_cases spc (c :: u2) with ⟨hnil, hall2⟩ | ⟨e, t2, he, hpe, hmem⟩
        · exact absurd hall2 hall
        · exact parenSuffix_notparen e t2 he (fun habs => (hu e hmem).1 habs) _
      rw [List.cons_append, stripParen_cons_eq, iteF (by simpa using hps),
        ih (fun d hd => hu d (List.mem_cons_of_mem c hd)) q hq hq2,
        stripWsRight_cons hall]

/-! ## Leading-marker lemmas -/

theorem markerFree_spec {u : List Char} (h : markerFreeB u = true) :
    ∀ m ∈ markers, ¬((m ++ [':']).isPrefixOf u = true) := by
  unfold markerFreeB at h
  rw [List.all_eq_true] at h
  intro m hm habs
  have h2 := h m hm
  rw [habs] at h2
  simp at h2

theorem stripLeadingMarker_id {u : List Char} (h : markerFreeB u = true) :
    stripLeadingMarker u = u := by
  unfold stripLeadingMarker
  have hnone : markers.find? (fun m => markerAt m u) = none := by
    rw [List.find?_eq_none]
    intro m hm habs
    unfold markerAt at habs
    rw [Bool.and_eq_true] at habs
    exact markerFree_spec h m hm habs.1
  rw [hnone]

/-- No nonempty suffix of any marker-plus-colon is a prefix of a string
that starts with a space and an opening parenthesis. -/
theorem marker_suffix_nil : ∀ m ∈ markers, ∀ (k : Nat) (r : List Char),
    ((m ++ [':']).drop k) <+: (' ' :: '(' :: r) → (m ++ [':']).drop k = [] := by
  intro m hm
  fin_cases hm <;>
    (intro k r hp
     rcases Nat.lt_or_ge k 10 with hlt | hge
     · interval_cases k <;>
         first
           | rfl
           | (simp only [List.drop] at hp ⊢
              simp [List.cons_prefix_cons] at hp)
     · exact List.drop_eq_nil_of_le (le_trans (by decide) hge))

/-- A marker-free string stays marker-free when a space and an opening
parenthesis follow it. -/
theorem markerFreeB_append {u : List Char} (h : markerFreeB u = true)
    (r : List Char) : markerFreeB (u ++ ' ' :: '(' :: r) = true := by
  unfold markerFreeB
  rw [List.all_eq_true]
  intro m hm
  suffices hs : ¬((m ++ [':']).isPrefixOf (u ++ ' ' :: '(' :: r) = true) by
    rcases hb : (m ++ [':']).isPrefixOf (u ++ ' ' :: '(' :: r) with _ | _
    · rfl
    · exact absurd hb hs
  intro habs
  rw [List.isPrefixOf_iff_prefix] at habs
  rcases List.prefix_or_prefix_of_prefix habs
      (List.prefix_append u (' ' :: '(' :: r)) with hPu | huP
  · exact markerFree_spec h m hm (List.isPrefixOf_iff_prefix.mpr hPu)
  · obtain ⟨w, hw⟩ := huP
    have hwp : w <+: ' ' :: '(' :: r := by
      rw [← List.prefix_append_right_inj u, hw]
      exact habs
    have hwd : w = (m ++ [':']).drop u.length := by
      rw [← hw, List.drop_left]
    have hnil : (m ++ [':']).drop u.length = [] :=
      marker_suffix_nil m hm u.length r (hwd ▸ hwp)
    have hw0 : w = [] := hwd.trans hnil
    rw [hw0, List.append_nil] at hw
    refine markerFree_spec h m hm (List.isPrefixOf_iff_prefix.mpr ?_)
    rw [← hw]

/-- The first rewrite on a title that starts with the BREAKING marker:
strip the marker, the colon and all following whitespace. -/
theorem stripLeadingMarker_breaking (u : List Char) :
    stripLeadingMarker ("breaking: ".toList ++ u) = u.dropWhile spc := rfl

/-! ## Word lists are unchanged by edge whitespace -/

theorem alnumWords_stripWsRight (u : List Char) :
    alnumWords (stripWsRight u) = alnumWords u := by
  obtain ⟨s2, hd, hs⟩ := stripWsRight_decomp u
  conv_rhs => rw [hd]
  exact (wordsAcc_append_nonalnum (fun c hc => spc_not_alnum (hs c hc))
    (stripWsRight u) []).symm

theorem alnumWords_dropWhile_spc (u : List Char) :
    alnumWords (u.dropWhile spc) = alnumWords u := by
  conv_rhs => rw [← List.takeWhile_append_dropWhile spc u]
  exact (wordsAcc_front_nonalnum (u.takeWhile spc)
    (fun c hc => spc_not_alnum (List.mem_takeWhile_imp hc)) (u.dropWhile spc)).symm

/-! ## C6 -/

/-- Counterexample to C6 as stated: the titles "BREAKING: Update: clashes
erupt" and "Update: clashes erupt" differ only by a leading BREAKING
marker, yet they do not normalise to the same string: the bare title has
its own "update:" marker stripped (leaving "clashes erupt"), while in the
marked title only "breaking:" is stripped, so the word "update" survives. -/
theorem near_dup_cex :
    nearDupMarked = "BREAKING: ".toList ++ nearDupBase ∧
    normalize_title nearDupMarked ≠ normalize_title nearDupBase := by
  refine ⟨by decide, by decide⟩

/-- C6 amended: a title extended by a trailing parenthetical (with nonempty
parenthesis-free content) or by a leading "BREAKING: " marker normalises to
the same string as the base title, provided the base title contains no
parenthesis characters and its lowercasing does not itself begin with one
of the strippable marker prefixes; and the deduplicator never retains two
items whose titles normalise to the same string (the later one is dropped
by the ≥ 0.96 near-duplicate rule, identical strings having ratio 1). -/
theorem near_dup_normalize :
    (∀ (t p : List Char), p ≠ [] → parenFreeB p = true → parenFreeB t = true →
      markerFreeB (lowerAll t) = true →
      normalize_title (t ++ ' ' :: '(' :: (p ++ [')'])) = normalize_title t) ∧
    (∀ (t : List Char), parenFreeB t = true → markerFreeB (lowerAll t) = true →
      normalize_title ("BREAKING: ".toList ++ t) = normalize_title t) ∧
    (∀ (l : List Item), (dedup l).Pairwise
      (fun a b => normalize_title a.title ≠ normalize_title b.title)) := by
  refine ⟨?_, ?_, dedup_norm_distinct⟩
  · intro t p hpne hpp ht hmf
    have hu_pf : ∀ c ∈ lowerAll t, c ≠ '(' ∧ c ≠ ')' :=
      (parenFree_iff _).mp (parenFreeB_lower ht)
    have hq_pf : ∀ c ∈ lowerAll p, c ≠ ')' :=
      fun c hc => ((parenFree_iff _).mp (parenFreeB_lower hpp) c hc).2
    have hq_ne : lowerAll p ≠ [] := by
      unfold lowerAll
      simpa using hpne
    have hlow : lowerAll (t ++ ' ' :: '(' :: (p ++ [')'])) =
        lowerAll t ++ ' ' :: '(' :: (lowerAll p ++ [')']) := by
      unfold lowerAll
      rw [List.map_append, List.map_cons, List.map_cons, List.map_append]
      rfl
    unfold normalize_title
    rw [hlow]
    dsimp only
    rw [stripLeadingMarker_id (markerFreeB_append hmf (lowerAll p ++ [')'])),
      stripLeadingMarker_id hmf,
      stripTrailingParen_sep (lowerAll t) hu_pf (lowerAll p) hq_ne hq_pf,
      stripTrailingParen_id (fun c hc => (hu_pf c hc).2)]
    have hw : alnumWords (collapseDashes (stripWsRight (lowerAll t))) =
        alnumWords (collapseDashes (lowerAll t)) := by
      rw [alnumWords_collDash, alnumWords_collDash, alnumWords_stripWsRight]
    rw [hw]
  · intro t ht hmf
    have hu_pf : ∀ c ∈ lowerAll t, c ≠ '(' ∧ c ≠ ')' :=
      (parenFree_iff _).mp (parenFreeB_lower ht)
    have hlow : lowerAll ("BREAKING: ".toList ++ t) =
        "breaking: ".toList ++ lowerAll t := by
      unfold lowerAll
      rw [List.map_append]
      rfl
    unfold normalize_title
    rw [hlow]
    dsimp only
    rw [stripLeadingMarker_breaking, stripLeadingMarker_id hmf,
      stripTrailingParen_id (fun c hc =>
        (hu_pf c (((List.dropWhile_sublist spc).mem hc))).2),
      stripTrailingParen_id (fun c hc => (hu_pf c hc).2)]
    have hw : alnumWords (collapseDashes ((lowerAll t).dropWhile spc)) =
        alnumWords (collapseDashes (lowerAll t)) := by
      rw [alnumWords_collDash, alnumWords_collDash, alnumWords_dropWhile_spc]
    rw [hw]

/-- Witness for C6's amended theorem: a concrete title with a trailing
parenthetical added normalises identically to the base title. -/
theorem near_dup_normalize_witness :
    normalize_title ("Attack injures 3 (updated)".toList) =
      normalize_title ("Attack injures 3".toList) := by
  have he : "Attack injures 3 (updated)".toList =
      "Attack injures 3".toList ++ ' ' :: '(' :: ("updated".toList ++ [')']) := by decide
  rw [he]
  exact near_dup_normalize.1 ("Attack injures 3".toList) ("updated".toList)
    (by decide) (by decide) (by decide) (by decide)

end SgrSoc